import Mathlib

/-!
Shallow embedding of `src/logger.py`, a JSON-Lines logging module: the
`MyJSONFormatter` record formatter, the `LOG_RECORD_BUILTIN_ATTRS` attribute
classifier and the `NonErrorFilter` severity filter, together with proofs of
the specification's properties about them.

Python dicts are modelled as association lists in insertion order, where
assignment to an existing key replaces the value in place while keeping the
key's original position, as in CPython.
-/

/-- Values that can sit on a log record or be caller-supplied extras:
strings, integers, `None`, lists, dicts (whose keys are themselves values:
`json.dumps` accepts only primitive keys and raises `TypeError` otherwise),
or any other atomic object carried as its `str()` text — the text
`json.dumps(..., default=str)` would produce for it. Floats are not modelled
(no claim depends on float rendering), and circular structures, on which
`json.dumps` raises `ValueError`, are not representable in an inductive
value. -/
inductive PyVal where
  | pstr : String → PyVal
  | pint : Int → PyVal
  | pnone : PyVal
  | plist : List PyVal → PyVal
  | pdict : List (PyVal × PyVal) → PyVal
  | pobj : String → PyVal

/-- Python's `v is None` test on a value. -/
def PyVal.isNone : PyVal → Bool
  | .pnone => true
  | _ => false

/-- A `logging.LogRecord` as seen by the formatter and filter of
`src/logger.py`: `getMessage` is the rendered message text
`record.getMessage()`; `createdISO` is the ISO-8601 UTC rendering of
`record.created` (the float-to-text conversion is kept abstract, the record
carries the resulting string); `excText` is the `formatException` text of
the `record.exc_info` tuple when that attribute is not `None`, and `none`
when it is `None`; `stackText` is `record.stack_info` itself — `none` for
`None`, otherwise the captured stack string (the formatter never obtains a
formatted version of it: see `MyJSONFormatter.prepareLogDict`); `levelno` is
the numeric severity; `dict` holds the entries of `record.__dict__` in
insertion order (intrinsic attributes first, caller-supplied extras appended
last by record construction). -/
structure LogRecord where
  getMessage : String
  createdISO : String
  excText : Option String
  stackText : Option String
  levelno : Int
  dict : List (String × PyVal)

/-- Severity constant `logging.DEBUG` of the Python `logging` module. -/
def logging_DEBUG : Int := 10

/-- Severity constant `logging.INFO` of the Python `logging` module. -/
def logging_INFO : Int := 20

/-- Severity constant `logging.WARNING` of the Python `logging` module. -/
def logging_WARNING : Int := 30

/-- Severity constant `logging.ERROR` of the Python `logging` module. -/
def logging_ERROR : Int := 40

/-- Severity constant `logging.CRITICAL` of the Python `logging` module. -/
def logging_CRITICAL : Int := 50

/-- The set of built-in (intrinsic) log record attribute names,
`LOG_RECORD_BUILTIN_ATTRS` in `src/logger.py` (a Python set; only membership
is ever used, so a list is a faithful model). -/
def LOG_RECORD_BUILTIN_ATTRS : List String :=
  ["args", "asctime", "created", "exc_info", "exc_text", "filename",
   "funcName", "levelname", "levelno", "lineno", "module", "msecs",
   "message", "msg", "name", "pathname", "process", "processName",
   "relativeCreated", "stack_info", "thread", "threadName", "taskName"]

/-- Keys of a modelled Python dict, in insertion order. -/
def dictKeys (d : List (String × PyVal)) : List String := d.map Prod.fst

/-- Lookup in a modelled Python dict. -/
def dictFind (d : List (String × PyVal)) (k : String) : Option PyVal :=
  (d.find? fun p => p.1 == k).map Prod.snd

/-- Assignment `d[k] = v` on a modelled Python dict: replaces the value in
place when the key is present, appends the pair otherwise. -/
def dictInsert (d : List (String × PyVal)) (k : String) (v : PyVal) : List (String × PyVal) :=
  if d.any fun p => p.1 == k then d.map fun p => if p.1 == k then (k, v) else p
  else d ++ [(k, v)]

/-- Python's `d.pop(k, None)`: returns the stored value (when present) and
the dict with that entry removed. -/
def popD (d : List (String × PyVal)) (k : String) : Option PyVal × List (String × PyVal) :=
  match d.find? fun p => p.1 == k with
  | some p => (some p.2, d.filter fun q => !(q.1 == k))
  | none => (none, d)

/-- Attribute names reachable on a `logging.LogRecord` through the class
rather than the instance `__dict__`: the methods `LogRecord` defines plus the
attributes every `object` provides. `getattr(record, name)` succeeds for
these even though they are not in `record.__dict__`. -/
def LOG_RECORD_CLASS_ATTRS : List String :=
  ["getMessage", "__init__", "__repr__", "__class__", "__delattr__",
   "__dict__", "__dir__", "__doc__", "__eq__", "__format__", "__ge__",
   "__getattribute__", "__getstate__", "__gt__", "__hash__",
   "__init_subclass__", "__le__", "__lt__", "__module__", "__ne__",
   "__new__", "__reduce__", "__reduce_ex__", "__setattr__", "__sizeof__",
   "__str__", "__subclasshook__", "__weakref__"]

/-- Python's `getattr(record, a)`: instance-attribute lookup on
`record.__dict__`, falling back to the class attributes of `LogRecord` (a
bound method or descriptor value — an object with no native JSON
representation, modelled as `pobj` with an abstract `str()` text, which is
what `default=str` renders for the typical bound-method case), and raising
`AttributeError` when the name is found in neither. -/
def getattrE (r : LogRecord) (a : String) : Except String PyVal :=
  match r.dict.find? fun p => p.1 == a with
  | some p => .ok p.2
  | none =>
    if LOG_RECORD_CLASS_ATTRS.contains a then
      .ok (PyVal.pobj ("<bound attribute " ++ a ++ " of LogRecord>"))
    else .error ("AttributeError: " ++ a)

/-- The `always_fields` dict built at the top of
`MyJSONFormatter._prepare_log_dict`, as it stands when the `stack_info` step
is reached: `message` and `timestamp` always, then `exc_info` exactly when
`record.exc_info` is not `None` (here `formatException` is applied to the
exception tuple and succeeds). The `stack_info` step never contributes an
entry — it crashes instead; see `MyJSONFormatter.prepareLogDict`. -/
def alwaysFields (r : LogRecord) : List (String × PyVal) :=
  [("message", PyVal.pstr r.getMessage), ("timestamp", PyVal.pstr r.createdISO)]
    ++ (match r.excText with
        | some t => [("exc_info", PyVal.pstr t)]
        | none => [])

/-- Names of the always-present derived fields of a record. -/
def alwaysNames (r : LogRecord) : List String := dictKeys (alwaysFields r)

/-- The dict comprehension of `_prepare_log_dict`:
`{key: msg_val if (msg_val := always_fields.pop(val, None)) is not None
else getattr(record, val) for key, val in self.fmt_keys.items()}`.
Iterates `fmt_keys` in order, threading the mutated `always_fields` and the
dict under construction; an `AttributeError` from `getattr` aborts the whole
comprehension. Returns the built dict and the remaining `always_fields`. -/
def buildFmt (r : LogRecord) :
    List (String × String) → List (String × PyVal) → List (String × PyVal) →
    Except String (List (String × PyVal) × List (String × PyVal))
  | [], always, acc => .ok (acc, always)
  | (key, val) :: rest, always, acc =>
    match popD always val with
    | (some v, always') =>
      if v.isNone then
        match getattrE r val with
        | .ok w => buildFmt r rest always' (dictInsert acc key w)
        | .error e => .error e
      else buildFmt r rest always' (dictInsert acc key v)
    | (none, always') =>
      match getattrE r val with
      | .ok w => buildFmt r rest always' (dictInsert acc key w)
      | .error e => .error e

/-- The caller-supplied extras of a record: the entries of `record.__dict__`
whose key is not in `LOG_RECORD_BUILTIN_ATTRS`, in attribute order (the
filter of the final loop of `_prepare_log_dict`). -/
def extrasOf (r : LogRecord) : List (String × PyVal) :=
  r.dict.filter fun p => !(LOG_RECORD_BUILTIN_ATTRS.contains p.1)

/-- `MyJSONFormatter._prepare_log_dict(record)`. When `record.stack_info` is
not `None` it is a string, and the source calls
`self.formatException(record.stack_info)` on it (`src/logger.py:97`);
`formatException` indexes its argument as an exception triple and
`traceback` then accesses `tb_frame` on a character, so the call raises
`AttributeError: 'str' object has no attribute 'tb_frame'` and the whole
render dies before the comprehension runs (`formatStack` was evidently
intended). Otherwise: the dict comprehension over `fmt_keys`, then
`message.update(always_fields)` with the unconsumed always-present fields,
then the loop appending every non-builtin attribute of `record.__dict__`. -/
def MyJSONFormatter.prepareLogDict (fmtKeys : List (String × String)) (r : LogRecord) :
    Except String (List (String × PyVal)) :=
  match r.stackText with
  | some _ => .error "AttributeError: 'str' object has no attribute 'tb_frame'"
  | none =>
    match buildFmt r fmtKeys (alwaysFields r) [] with
    | .error e => .error e
    | .ok (msg, leftover) =>
      .ok ((extrasOf r).foldl (fun d p => dictInsert d p.1 p.2)
        (leftover.foldl (fun d p => dictInsert d p.1 p.2) msg))

/-- One hexadecimal digit, as used in JSON `\uXXXX` escapes and in decimal
integer rendering. -/
def hexDigitM (n : Nat) : Char :=
  match n with
  | 0 => '0' | 1 => '1' | 2 => '2' | 3 => '3' | 4 => '4' | 5 => '5' | 6 => '6'
  | 7 => '7' | 8 => '8' | 9 => '9' | 10 => 'a' | 11 => 'b' | 12 => 'c'
  | 13 => 'd' | 14 => 'e' | _ => 'f'

/-- Four hex digits of a (BMP) code unit. -/
def hex4 (n : Nat) : List Char :=
  [hexDigitM (n / 4096 % 16), hexDigitM (n / 256 % 16), hexDigitM (n / 16 % 16),
   hexDigitM (n % 16)]

/-- JSON escaping of one character, following `json.dumps` with its default
`ensure_ascii=True`: short escapes for quote, backslash and common control
characters, `\uXXXX` for other control and all non-ASCII characters
(surrogate pairs above the BMP), the character itself otherwise. -/
def escChar (c : Char) : List Char :=
  if c = '\"' then ['\\', '\"']
  else if c = '\\' then ['\\', '\\']
  else if c = '\n' then ['\\', 'n']
  else if c = '\t' then ['\\', 't']
  else if c = '\r' then ['\\', 'r']
  else if c = Char.ofNat 8 then ['\\', 'b']
  else if c = Char.ofNat 12 then ['\\', 'f']
  else if c.toNat < 32 then '\\' :: 'u' :: hex4 c.toNat
  else if c.toNat ≤ 126 then [c]
  else if c.toNat < 65536 then '\\' :: 'u' :: hex4 c.toNat
  else ('\\' :: 'u' :: hex4 (55296 + (c.toNat - 65536) / 1024))
        ++ '\\' :: 'u' :: hex4 (56320 + (c.toNat - 65536) % 1024)

/-- JSON escaping of a character list. -/
def escList : List Char → List Char
  | [] => []
  | c :: cs => escChar c ++ escList cs

/-- A JSON string literal (quotes plus escaped content). -/
def jsonQuoteL (l : List Char) : List Char := '\"' :: (escList l ++ ['\"'])

/-- Decimal digits of a natural number, most significant first. -/
def natReprL (n : Nat) : List Char :=
  if n < 10 then [hexDigitM n]
  else natReprL (n / 10) ++ [hexDigitM (n % 10)]
termination_by n
decreasing_by exact Nat.div_lt_self (by omega) (by omega)

/-- Decimal rendering of an integer, as Python's `repr`. -/
def intReprL (n : Int) : List Char :=
  if n < 0 then '-' :: natReprL n.natAbs else natReprL n.toNat

/-- CPython's default recursion limit, which bounds how deeply `json.dumps`
can recurse before raising `RecursionError`. -/
def PY_RECURSION_LIMIT : Nat := 1000

/-- JSON rendering of a dict key under `json.dumps`: string keys are used
directly, `int` and `None` keys are coerced to their text and quoted, and
any other key makes `json.dumps` raise
`TypeError: keys must be str, int, float, bool or None` (the `default=`
hook is never consulted for keys). Floats and bools are outside the value
model. -/
def jsonKeyF : PyVal → Except String (List Char)
  | .pstr s => .ok (jsonQuoteL s.data)
  | .pint n => .ok ('\"' :: (intReprL n ++ ['\"']))
  | .pnone => .ok (jsonQuoteL "null".data)
  | _ => .error "TypeError: keys must be str, int, float, bool or None"

/-- Fuel-bounded core of `json.dumps(..., default=str)`, over a value, the
items of a list, or the members of a dict (one function over the sum so the
recursion is structural on the fuel, mirroring CPython's recursion limit):
strings are quoted and escaped, integers rendered in decimal, `None` as
`null`, lists and dicts rendered recursively with the default separators,
and any other atomic object is first converted by `default=str` to its
textual representation and then rendered as a JSON string. Exhausted fuel is
CPython's `RecursionError` on over-deep nesting. -/
def serializeF : Nat → PyVal ⊕ List PyVal ⊕ List (PyVal × PyVal) →
    Except String (List Char)
  | 0, _ => .error "RecursionError: maximum recursion depth exceeded"
  | _ + 1, .inl (.pstr s) => .ok (jsonQuoteL s.data)
  | _ + 1, .inl (.pint n) => .ok (intReprL n)
  | _ + 1, .inl .pnone => .ok ['n', 'u', 'l', 'l']
  | _ + 1, .inl (.pobj s) => .ok (jsonQuoteL s.data)
  | fuel + 1, .inl (.plist xs) =>
    match serializeF fuel (.inr (.inl xs)) with
    | .error e => .error e
    | .ok l => .ok ('[' :: (l ++ [']']))
  | fuel + 1, .inl (.pdict kvs) =>
    match serializeF fuel (.inr (.inr kvs)) with
    | .error e => .error e
    | .ok l => .ok (Char.ofNat 123 :: (l ++ [Char.ofNat 125]))
  | _ + 1, .inr (.inl []) => .ok []
  | fuel + 1, .inr (.inl [x]) => serializeF fuel (.inl x)
  | fuel + 1, .inr (.inl (x :: y :: rest)) =>
    match serializeF fuel (.inl x) with
    | .error e => .error e
    | .ok a =>
      match serializeF fuel (.inr (.inl (y :: rest))) with
      | .error e => .error e
      | .ok b => .ok (a ++ ',' :: ' ' :: b)
  | _ + 1, .inr (.inr []) => .ok []
  | fuel + 1, .inr (.inr ((k, v) :: rest)) =>
    match jsonKeyF k with
    | .error e => .error e
    | .ok ks =>
      match serializeF fuel (.inl v) with
      | .error e => .error e
      | .ok vs =>
        match rest with
        | [] => .ok (ks ++ ':' :: ' ' :: vs)
        | _ :: _ =>
          match serializeF fuel (.inr (.inr rest)) with
          | .error e => .error e
          | .ok b => .ok ((ks ++ ':' :: ' ' :: vs) ++ ',' :: ' ' :: b)

/-- `json.dumps(v, default=str)` of one value, at the full recursion
budget. -/
def serializeValE (v : PyVal) : Except String (List Char) :=
  serializeF PY_RECURSION_LIMIT (.inl v)

/-- One `"key": value` member of the top-level JSON object (the record
mapping's keys are genuine strings, so only the value can fail). -/
def entryE (p : String × PyVal) : Except String (List Char) :=
  match serializeValE p.2 with
  | .error e => .error e
  | .ok vs => .ok (jsonQuoteL p.1.data ++ ':' :: ' ' :: vs)

/-- The comma-separated members of the top-level JSON object. -/
def serializeEntriesE : List (String × PyVal) → Except String (List Char)
  | [] => .ok []
  | [p] => entryE p
  | p :: q :: rest =>
    match entryE p with
    | .error e => .error e
    | .ok a =>
      match serializeEntriesE (q :: rest) with
      | .error e => .error e
      | .ok b => .ok (a ++ ',' :: ' ' :: b)

/-- `json.dumps` of the prepared record mapping: braces around the
members. -/
def serializeDictE (d : List (String × PyVal)) : Except String (List Char) :=
  match serializeEntriesE d with
  | .error e => .error e
  | .ok l => .ok (Char.ofNat 123 :: (l ++ [Char.ofNat 125]))

/-- `MyJSONFormatter.format(record)`:
`json.dumps(self._prepare_log_dict(record), default=str)`. -/
def MyJSONFormatter.format (fmtKeys : List (String × String)) (r : LogRecord) :
    Except String String :=
  match MyJSONFormatter.prepareLogDict fmtKeys r with
  | .error e => .error e
  | .ok m =>
    match serializeDictE m with
    | .error e => .error e
    | .ok l => .ok (String.mk l)

/-- `NonErrorFilter.filter(record)`: `record.levelno <= logging.INFO`. -/
def NonErrorFilter.filter (r : LogRecord) : Bool :=
  decide (r.levelno ≤ logging_INFO)

/-- Names of the always-present derived fields left unconsumed by a format
spec: those whose name no `fmt_keys` entry references as its source. -/
def leftoverAlwaysNames (fmtKeys : List (String × String)) (r : LogRecord) : List String :=
  (alwaysNames r).filter fun n => !((fmtKeys.map Prod.snd).contains n)


/-- Modelled from the spec: the default file-sink format spec
`{"level": "levelname", "message": "message", "timestamp": "timestamp"}`.
The declarative pipeline configuration (`logging_configs/logging_config.json`)
that supplies `fmt_keys` to the file sink's `MyJSONFormatter` is not under
`src/`; the spec's external-interface section and its scenario name exactly
this mapping. -/
def defaultFmtKeys : List (String × String) :=
  [("level", "levelname"), ("message", "message"), ("timestamp", "timestamp")]

/-- Modelled from the spec: the record produced by the exception-flavored
emission (`Logger.exception`) when no exception context is active. The
emission machinery (`logging.Logger.exception` and `LogRecord` construction)
is not part of `src/`; per the spec this usage "must not crash" and "records
an empty/absent `exc_info`", so the modelled record carries no exception
text. The intrinsic attributes are those of a `my_logger` ERROR record. -/
def exceptionEmitNoContext (msg ts : String) : LogRecord :=
  { getMessage := msg, createdISO := ts, excText := none, stackText := none,
    levelno := 40,
    dict := [("name", PyVal.pstr "my_logger"), ("msg", PyVal.pstr msg),
             ("levelname", PyVal.pstr "ERROR"), ("levelno", PyVal.pint 40)] }

/-- Concrete record used by claim C1: an INFO event with no caller extras. -/
def recC1 : LogRecord :=
  { getMessage := "hi", createdISO := "2026-10-12T00:00:00+00:00",
    excText := none, stackText := none, levelno := 20,
    dict := [("levelname", PyVal.pstr "INFO")] }

/-- Concrete record used by claim C2: an INFO event carrying the extra
field `"x": "hello"`. -/
def recC2 : LogRecord :=
  { getMessage := "hi", createdISO := "2026-10-12T00:00:00+00:00",
    excText := none, stackText := none, levelno := 20,
    dict := [("levelname", PyVal.pstr "INFO"), ("x", PyVal.pstr "hello")] }

/-- Concrete record used by claim C3. -/
def recC3 : LogRecord :=
  { getMessage := "hi", createdISO := "2026-10-12T00:00:00+00:00",
    excText := none, stackText := none, levelno := 20,
    dict := [("levelname", PyVal.pstr "INFO")] }

/-- Concrete record used by claim C4's counterexample: its caller extra is
named `timestamp`, colliding with a leftover always-present field. -/
def recC4 : LogRecord :=
  { getMessage := "hi", createdISO := "2026-10-12T00:00:00+00:00",
    excText := none, stackText := none, levelno := 20,
    dict := [("levelname", PyVal.pstr "INFO"), ("timestamp", PyVal.pstr "fake")] }

/-- Concrete record used by claim C4's counterexample: extras-free, used
with a format spec whose output key collides with a leftover always-present
field name. -/
def recC4b : LogRecord :=
  { getMessage := "hi", createdISO := "2026-10-12T00:00:00+00:00",
    excText := none, stackText := none, levelno := 20,
    dict := [("levelname", PyVal.pstr "INFO")] }

/-- Concrete record used by claim C4's amended-claim witness: one extra with
a non-colliding name. -/
def recC4w : LogRecord :=
  { getMessage := "hi", createdISO := "2026-10-12T00:00:00+00:00",
    excText := none, stackText := none, levelno := 20,
    dict := [("levelname", PyVal.pstr "INFO"), ("x", PyVal.pstr "hello")] }

/-- Concrete record used by claim C5: a DEBUG event. -/
def recC5 : LogRecord :=
  { getMessage := "debug", createdISO := "2026-10-12T00:00:00+00:00",
    excText := none, stackText := none, levelno := 10, dict := [] }

/-- Concrete record used by claim C6's counterexample. -/
def recC6 : LogRecord :=
  { getMessage := "hi", createdISO := "2026-10-12T00:00:00+00:00",
    excText := none, stackText := none, levelno := 20,
    dict := [("levelname", PyVal.pstr "INFO")] }

/-- Concrete record used by claim C6's amended-claim witness: its message
contains a newline and one extra has no native JSON representation. -/
def recC6w : LogRecord :=
  { getMessage := "line1\nline2", createdISO := "2026-10-12T00:00:00+00:00",
    excText := none, stackText := none, levelno := 20,
    dict := [("levelname", PyVal.pstr "INFO"),
             ("payload", PyVal.pobj "<Widget object at 0x1>")] }

/-- Concrete record used by claim C6's counterexample: it carries captured
stack info (the stack string). -/
def recC6stack : LogRecord :=
  { getMessage := "hi", createdISO := "2026-10-12T00:00:00+00:00",
    excText := none,
    stackText := some "Stack (most recent call last): ...",
    levelno := 20,
    dict := [("levelname", PyVal.pstr "INFO")] }

/-- Concrete record used by claim C6's counterexample: one extra is a dict
whose key is an object, on which `json.dumps` raises `TypeError`. -/
def recC6bad : LogRecord :=
  { getMessage := "hi", createdISO := "2026-10-12T00:00:00+00:00",
    excText := none, stackText := none, levelno := 20,
    dict := [("levelname", PyVal.pstr "INFO"),
             ("payload", PyVal.pdict [(PyVal.pobj "<Widget object at 0x1>",
               PyVal.pint 1)])] }

/-- Concrete record used by claim C7's counterexample: it carries separate
stack-trace info. -/
def recC7stack : LogRecord :=
  { getMessage := "boom", createdISO := "2026-10-12T00:00:00+00:00",
    excText := some "Traceback: ZeroDivisionError",
    stackText := some "Stack (most recent call last): ...",
    levelno := 40,
    dict := [("levelname", PyVal.pstr "ERROR")] }

/-- Concrete record used by claim C7's counterexample: it carries exception
text. -/
def recC7 : LogRecord :=
  { getMessage := "boom", createdISO := "2026-10-12T00:00:00+00:00",
    excText := some "Traceback: ZeroDivisionError",
    stackText := none, levelno := 40,
    dict := [("levelname", PyVal.pstr "ERROR")] }

/-- Concrete record used by claim C7's amended-claim witness. -/
def recC7w : LogRecord :=
  { getMessage := "boom", createdISO := "2026-10-12T00:00:00+00:00",
    excText := some "Traceback: ZeroDivisionError",
    stackText := none, levelno := 40,
    dict := [("levelname", PyVal.pstr "ERROR")] }

/-- Concrete record used by claim C9's witness. -/
def recC9w : LogRecord :=
  { getMessage := "Logging setup complete.",
    createdISO := "2026-10-12T00:00:00+00:00",
    excText := none, stackText := none, levelno := 20,
    dict := [("levelname", PyVal.pstr "INFO"), ("x", PyVal.pstr "hello")] }

/-- Concrete record used by claim C10: its caller extra `level` collides with
the format spec's output key `level`. -/
def recC10 : LogRecord :=
  { getMessage := "hi", createdISO := "2026-10-12T00:00:00+00:00",
    excText := none, stackText := none, levelno := 20,
    dict := [("levelname", PyVal.pstr "INFO"), ("level", PyVal.pstr "fake")] }

/-! Basic lemmas about the dict model. -/

lemma contains_eq_decide_mem (l : List String) (a : String) :
    l.contains a = decide (a ∈ l) :=
  List.elem_eq_mem a l

lemma isNone_false (v : PyVal) (h : v ≠ PyVal.pnone) : ¬ v.isNone = true := by
  cases v with
  | pnone => exact absurd rfl h
  | pstr s => simp [PyVal.isNone]
  | pint n => simp [PyVal.isNone]
  | plist l => simp [PyVal.isNone]
  | pdict l => simp [PyVal.isNone]
  | pobj s => simp [PyVal.isNone]

lemma dictKeys_map_ite (d : List (String × PyVal)) (k : String) (v : PyVal) :
    dictKeys (d.map fun p => if p.1 == k then (k, v) else p) = dictKeys d := by
  unfold dictKeys
  rw [List.map_map]
  refine List.map_congr_left ?_
  intro p hp
  by_cases h : (p.1 == k) = true
  · have hk : p.1 = k := by simpa using h
    simp [Function.comp, h, hk]
  · simp [Function.comp, h]

lemma any_key_iff (d : List (String × PyVal)) (k : String) :
    (d.any fun p => p.1 == k) = true ↔ k ∈ dictKeys d := by
  rw [List.any_eq_true]
  constructor
  · rintro ⟨p, hp, hpk⟩
    have : p.1 = k := by simpa using hpk
    exact this ▸ List.mem_map_of_mem Prod.fst hp
  · intro hmem
    rcases List.mem_map.1 hmem with ⟨p, hp, hpk⟩
    exact ⟨p, hp, by simp [hpk]⟩

lemma dictKeys_insert (d : List (String × PyVal)) (k : String) (v : PyVal) :
    dictKeys (dictInsert d k v) =
      if k ∈ dictKeys d then dictKeys d else dictKeys d ++ [k] := by
  unfold dictInsert
  by_cases h : (d.any fun p => p.1 == k) = true
  · rw [if_pos h, if_pos ((any_key_iff d k).1 h), dictKeys_map_ite]
  · rw [if_neg h, if_neg (fun hm => h ((any_key_iff d k).2 hm))]
    simp [dictKeys]

lemma mem_dictKeys_insert (d : List (String × PyVal)) (k a : String) (v : PyVal) :
    a ∈ dictKeys (dictInsert d k v) ↔ a ∈ dictKeys d ∨ a = k := by
  rw [dictKeys_insert]
  by_cases h : k ∈ dictKeys d
  · rw [if_pos h]
    constructor
    · exact Or.inl
    · rintro (ha | rfl)
      · exact ha
      · exact h
  · rw [if_neg h]
    simp

lemma dictKeys_insert_of_not_mem (d : List (String × PyVal)) (k : String) (v : PyVal)
    (h : k ∉ dictKeys d) : dictKeys (dictInsert d k v) = dictKeys d ++ [k] := by
  rw [dictKeys_insert, if_neg h]

lemma find?_map_ite_self (d : List (String × PyVal)) (k : String) (v : PyVal)
    (h : ∃ p ∈ d, (p.1 == k) = true) :
    (d.map fun p => if p.1 == k then (k, v) else p).find? (fun p => p.1 == k)
      = some (k, v) := by
  induction d with
  | nil => rcases h with ⟨p, hp, _⟩; cases hp
  | cons a t ih =>
    by_cases ha : (a.1 == k) = true
    · rw [List.map_cons, if_pos ha]
      exact List.find?_cons_of_pos _ (by simp)
    · rw [List.map_cons, if_neg ha,
        @List.find?_cons_of_neg _ (fun p => p.1 == k) a _ ha]
      apply ih
      rcases h with ⟨p, hp, hpk⟩
      rcases List.mem_cons.1 hp with rfl | hpt
      · exact absurd hpk ha
      · exact ⟨p, hpt, hpk⟩

lemma find?_map_ite_ne (d : List (String × PyVal)) (k k' : String) (v : PyVal)
    (h : k ≠ k') :
    (d.map fun p => if p.1 == k' then (k', v) else p).find? (fun p => p.1 == k)
      = d.find? (fun p => p.1 == k) := by
  induction d with
  | nil => rfl
  | cons a t ih =>
    by_cases ha : (a.1 == k') = true
    · have hak : a.1 = k' := by simpa using ha
      have h1 : ¬ ((k' : String) == k) = true := by simpa using fun e => h e.symm
      have h2 : ¬ (a.1 == k) = true := by simpa [hak] using h1
      rw [List.map_cons, if_pos ha,
        @List.find?_cons_of_neg _ (fun p => p.1 == k) (k', v) _ h1,
        @List.find?_cons_of_neg _ (fun p => p.1 == k) a _ h2]
      exact ih
    · rw [List.map_cons, if_neg ha]
      by_cases hk : (a.1 == k) = true
      · rw [@List.find?_cons_of_pos _ (fun p => p.1 == k) a _ hk,
          @List.find?_cons_of_pos _ (fun p => p.1 == k) a _ hk]
      · rw [@List.find?_cons_of_neg _ (fun p => p.1 == k) a _ hk,
          @List.find?_cons_of_neg _ (fun p => p.1 == k) a _ hk]
        exact ih

lemma dictFind_insert_self (d : List (String × PyVal)) (k : String) (v : PyVal) :
    dictFind (dictInsert d k v) k = some v := by
  unfold dictInsert dictFind
  by_cases h : (d.any fun p => p.1 == k) = true
  · rw [if_pos h, find?_map_ite_self d k v (List.any_eq_true.1 h)]
    rfl
  · rw [if_neg h, List.find?_append]
    have hnone : d.find? (fun p => p.1 == k) = none := by
      rw [List.find?_eq_none]
      intro p hp hpk
      exact h (List.any_eq_true.2 ⟨p, hp, hpk⟩)
    rw [hnone]
    simp [List.find?_cons_of_pos]

lemma dictFind_insert_ne (d : List (String × PyVal)) (k k' : String) (v : PyVal)
    (h : k ≠ k') : dictFind (dictInsert d k' v) k = dictFind d k := by
  unfold dictInsert dictFind
  by_cases hany : (d.any fun p => p.1 == k') = true
  · rw [if_pos hany, find?_map_ite_ne d k k' v h]
  · rw [if_neg hany, List.find?_append]
    have : List.find? (fun p => p.1 == k) [(k', v)] = none := by
      refine List.find?_eq_none.2 ?_
      intro p hp
      have hpe : p = (k', v) := by simpa using hp
      subst hpe
      simpa using fun e => h e.symm
    rw [this]
    cases d.find? fun p => p.1 == k <;> rfl

lemma dictFind_eq_none_of_not_mem (d : List (String × PyVal)) (k : String)
    (h : k ∉ dictKeys d) : dictFind d k = none := by
  unfold dictFind
  have hnone : d.find? (fun p => p.1 == k) = none := by
    rw [List.find?_eq_none]
    intro p hp hpk
    have : p.1 = k := by simpa using hpk
    exact h (this ▸ List.mem_map_of_mem Prod.fst hp)
  rw [hnone]
  rfl

/-! Lemmas about folding dict assignment over a list (the `update` call and
the extras loop of `_prepare_log_dict`). -/

lemma mem_dictKeys_foldl (l : List (String × PyVal)) (d : List (String × PyVal)) (k : String) :
    k ∈ dictKeys (l.foldl (fun d p => dictInsert d p.1 p.2) d) ↔
      k ∈ dictKeys d ∨ k ∈ dictKeys l := by
  induction l generalizing d with
  | nil => simp [dictKeys]
  | cons q t ih =>
    rw [List.foldl_cons, ih (dictInsert d q.1 q.2)]
    rw [mem_dictKeys_insert]
    simp only [dictKeys, List.map_cons, List.mem_cons]
    tauto

lemma dictKeys_foldl_disjoint (l : List (String × PyVal)) (d : List (String × PyVal))
    (hnd : (dictKeys l).Nodup)
    (hdisj : ∀ k ∈ dictKeys l, k ∉ dictKeys d) :
    dictKeys (l.foldl (fun d p => dictInsert d p.1 p.2) d) = dictKeys d ++ dictKeys l := by
  induction l generalizing d with
  | nil => simp [dictKeys]
  | cons q t ih =>
    have hq : q.1 ∉ dictKeys d := hdisj q.1 (List.mem_cons_self _ _)
    have hndt : (dictKeys t).Nodup := (List.nodup_cons.1 hnd).2
    have hqt : q.1 ∉ dictKeys t := (List.nodup_cons.1 hnd).1
    have hdisj' : ∀ k ∈ dictKeys t, k ∉ dictKeys (dictInsert d q.1 q.2) := by
      intro k hk
      rw [mem_dictKeys_insert]
      rintro (hkd | rfl)
      · exact hdisj k (List.mem_cons_of_mem _ hk) hkd
      · exact hqt hk
    rw [List.foldl_cons, ih (dictInsert d q.1 q.2) hndt hdisj',
      dictKeys_insert_of_not_mem _ _ _ hq, List.append_assoc, List.singleton_append]
    rfl

lemma dictFind_foldl_of_not_mem (l : List (String × PyVal)) (d : List (String × PyVal))
    (k : String) (h : k ∉ dictKeys l) :
    dictFind (l.foldl (fun d p => dictInsert d p.1 p.2) d) k = dictFind d k := by
  induction l generalizing d with
  | nil => rfl
  | cons q t ih =>
    have hk1 : k ≠ q.1 := fun e => h (e ▸ List.mem_cons_self _ _)
    have hkt : k ∉ dictKeys t := fun hm => h (List.mem_cons_of_mem _ hm)
    rw [List.foldl_cons, ih (dictInsert d q.1 q.2) hkt, dictFind_insert_ne _ _ _ _ hk1]

lemma dictFind_foldl_of_mem (l : List (String × PyVal)) (d : List (String × PyVal))
    (k : String) (v : PyVal) (hnd : (dictKeys l).Nodup) (hm : (k, v) ∈ l) :
    dictFind (l.foldl (fun d p => dictInsert d p.1 p.2) d) k = some v := by
  induction l generalizing d with
  | nil => cases hm
  | cons q t ih =>
    rcases List.mem_cons.1 hm with heq | hmt
    · have hknt : k ∉ dictKeys t := by
        have := (List.nodup_cons.1 hnd).1
        rwa [← heq] at this
      rw [List.foldl_cons, dictFind_foldl_of_not_mem t _ k hknt, ← heq,
        dictFind_insert_self]
    · rw [List.foldl_cons]
      exact ih (dictInsert d q.1 q.2) (List.nodup_cons.1 hnd).2 hmt

/-! Lemmas about `pop` on the `always_fields` dict. -/

lemma popD_not_mem (always : List (String × PyVal)) (k : String)
    (h : k ∉ dictKeys always) : popD always k = (none, always) := by
  unfold popD
  have hf : always.find? (fun p => p.1 == k) = none := by
    rw [List.find?_eq_none]
    intro p hp hpk
    have : p.1 = k := by simpa using hpk
    exact h (this ▸ List.mem_map_of_mem Prod.fst hp)
  rw [hf]

lemma popD_mem (always : List (String × PyVal)) (k : String)
    (h : k ∈ dictKeys always) :
    ∃ v, (k, v) ∈ always ∧
      popD always k = (some v, always.filter fun q => !(q.1 == k)) := by
  unfold popD
  cases hf : always.find? (fun p => p.1 == k) with
  | none =>
    exfalso
    rcases List.mem_map.1 h with ⟨p, hp, hpk⟩
    exact (List.find?_eq_none.1 hf p hp) (by simp [hpk])
  | some p =>
    have hpk : p.1 = k := by simpa using List.find?_some hf
    have hpm : p ∈ always := List.mem_of_find?_eq_some hf
    refine ⟨p.2, ?_, rfl⟩
    rw [← hpk]
    exact hpm

lemma popD_some_eq (always : List (String × PyVal)) (k : String) (v : PyVal)
    (always' : List (String × PyVal)) (h : popD always k = (some v, always')) :
    always' = always.filter (fun q => !(q.1 == k)) ∧ (k, v) ∈ always := by
  by_cases hmem : k ∈ dictKeys always
  · obtain ⟨w, hw, hpop⟩ := popD_mem always k hmem
    rw [hpop] at h
    have h1 : w = v := by
      have := congrArg Prod.fst h
      simpa using this
    have h2 : always' = always.filter (fun q => !(q.1 == k)) := by
      have := congrArg Prod.snd h
      simpa using this.symm
    exact ⟨h2, h1 ▸ hw⟩
  · rw [popD_not_mem always k hmem] at h
    exact absurd (congrArg Prod.fst h) (by simp)

lemma popD_none_eq (always : List (String × PyVal)) (k : String)
    (always' : List (String × PyVal)) (h : popD always k = (none, always')) :
    always' = always ∧ k ∉ dictKeys always := by
  by_cases hmem : k ∈ dictKeys always
  · obtain ⟨w, hw, hpop⟩ := popD_mem always k hmem
    rw [hpop] at h
    exact absurd (congrArg Prod.fst h) (by simp)
  · rw [popD_not_mem always k hmem] at h
    have : always = always' := by simpa using congrArg Prod.snd h
    exact ⟨this.symm, hmem⟩

lemma popD_snd_keys_subset (always : List (String × PyVal)) (k : String)
    (mv : Option PyVal) (always' : List (String × PyVal))
    (h : popD always k = (mv, always')) :
    ∀ a, a ∈ dictKeys always' → a ∈ dictKeys always := by
  intro a ha
  cases mv with
  | some v =>
    obtain ⟨heq, -⟩ := popD_some_eq always k v always' h
    subst heq
    rcases List.mem_map.1 ha with ⟨p, hp, hp1⟩
    exact hp1 ▸ List.mem_map_of_mem Prod.fst (List.mem_filter.1 hp).1
  | none =>
    obtain ⟨heq, -⟩ := popD_none_eq always k always' h
    subst heq
    exact ha

/-! Lemmas about `getattr` and the `fmt_keys` comprehension. -/

lemma getattrE_not_mem (r : LogRecord) (a : String) (h : a ∉ dictKeys r.dict)
    (hc : a ∉ LOG_RECORD_CLASS_ATTRS) :
    getattrE r a = .error ("AttributeError: " ++ a) := by
  unfold getattrE
  have hf : r.dict.find? (fun p => p.1 == a) = none := by
    rw [List.find?_eq_none]
    intro p hp hpk
    have : p.1 = a := by simpa using hpk
    exact h (this ▸ List.mem_map_of_mem Prod.fst hp)
  rw [hf]
  have hcb : ¬ LOG_RECORD_CLASS_ATTRS.contains a = true := by
    rw [contains_eq_decide_mem]
    simp [hc]
  rw [if_neg hcb]

lemma getattrE_mem (r : LogRecord) (a : String) (h : a ∈ dictKeys r.dict) :
    ∃ w, getattrE r a = .ok w := by
  unfold getattrE
  rcases List.mem_map.1 h with ⟨q, hq, hq1⟩
  cases hf : r.dict.find? (fun p => p.1 == a) with
  | some p => exact ⟨p.2, rfl⟩
  | none =>
    exact absurd (show (q.1 == a) = true by simp [hq1])
      (List.find?_eq_none.1 hf q hq)

lemma filter_pop_sources (always : List (String × PyVal)) (val : String)
    (srcs : List String) :
    (always.filter fun q => !(q.1 == val)).filter (fun p => !(srcs.contains p.1)) =
      always.filter fun p => !((val :: srcs).contains p.1) := by
  rw [List.filter_filter]
  refine List.filter_congr ?_
  intro p hp
  rw [List.contains_cons]
  cases hv : (p.1 == val) <;> cases hc : srcs.contains p.1 <;> simp [hv, hc]

lemma buildFmt_leftover (r : LogRecord) (fk : List (String × String))
    (always acc m left : List (String × PyVal))
    (h : buildFmt r fk always acc = .ok (m, left)) :
    left = always.filter fun p => !((fk.map Prod.snd).contains p.1) := by
  induction fk generalizing always acc with
  | nil =>
    simp only [buildFmt, Except.ok.injEq, Prod.mk.injEq] at h
    obtain ⟨-, rfl⟩ := h
    have he : (fun p : String × PyVal =>
        !((([] : List (String × String)).map Prod.snd).contains p.1)) = fun _ => true := by
      funext p
      rfl
    rw [he, List.filter_true]
  | cons e rest ih =>
    obtain ⟨key, val⟩ := e
    rcases hpop : popD always val with ⟨mv, always'⟩
    cases mv with
    | some v =>
      obtain ⟨hflt, -⟩ := popD_some_eq always val v always' hpop
      subst hflt
      simp only [buildFmt, hpop] at h
      by_cases hv : v.isNone = true
      · rw [if_pos hv] at h
        cases hget : getattrE r val with
        | ok w =>
          rw [hget] at h
          rw [ih _ _ h, List.map_cons, filter_pop_sources]
        | error e =>
          rw [hget] at h
          simp at h
      · rw [if_neg hv] at h
        rw [ih _ _ h, List.map_cons, filter_pop_sources]
    | none =>
      obtain ⟨heq, hnmem⟩ := popD_none_eq always val always' hpop
      subst heq
      simp only [buildFmt, hpop] at h
      cases hget : getattrE r val with
      | ok w =>
        rw [hget] at h
        rw [ih _ _ h, List.map_cons]
        refine List.filter_congr ?_
        intro p hp
        rw [List.contains_cons]
        have hpv : (p.1 == val) = false := by
          refine Bool.eq_false_iff.2 ?_
          intro hb
          have : p.1 = val := by simpa using hb
          exact hnmem (this ▸ List.mem_map_of_mem Prod.fst hp)
        rw [hpv]
        simp
      | error e =>
        rw [hget] at h
        simp at h

lemma buildFmt_mem_keys (r : LogRecord) (fk : List (String × String))
    (always acc m left : List (String × PyVal))
    (h : buildFmt r fk always acc = .ok (m, left)) (k : String) :
    k ∈ dictKeys m ↔ k ∈ dictKeys acc ∨ k ∈ fk.map Prod.fst := by
  induction fk generalizing always acc with
  | nil =>
    simp only [buildFmt, Except.ok.injEq, Prod.mk.injEq] at h
    obtain ⟨rfl, -⟩ := h
    simp
  | cons e rest ih =>
    obtain ⟨key, val⟩ := e
    rcases hpop : popD always val with ⟨mv, always'⟩
    cases mv with
    | some v =>
      simp only [buildFmt, hpop] at h
      by_cases hv : v.isNone = true
      · rw [if_pos hv] at h
        cases hget : getattrE r val with
        | ok w =>
          rw [hget] at h
          rw [ih _ _ h, mem_dictKeys_insert]
          simp only [List.map_cons, List.mem_cons]
          tauto
        | error e =>
          rw [hget] at h
          simp at h
      · rw [if_neg hv] at h
        rw [ih _ _ h, mem_dictKeys_insert]
        simp only [List.map_cons, List.mem_cons]
        tauto
    | none =>
      simp only [buildFmt, hpop] at h
      cases hget : getattrE r val with
      | ok w =>
        rw [hget] at h
        rw [ih _ _ h, mem_dictKeys_insert]
        simp only [List.map_cons, List.mem_cons]
        tauto
      | error e =>
        rw [hget] at h
        simp at h

lemma buildFmt_keys_append (r : LogRecord) (fk : List (String × String))
    (always acc m left : List (String × PyVal))
    (hnd : (fk.map Prod.fst).Nodup)
    (hdisj : ∀ k ∈ fk.map Prod.fst, k ∉ dictKeys acc)
    (h : buildFmt r fk always acc = .ok (m, left)) :
    dictKeys m = dictKeys acc ++ fk.map Prod.fst := by
  induction fk generalizing always acc with
  | nil =>
    simp only [buildFmt, Except.ok.injEq, Prod.mk.injEq] at h
    obtain ⟨rfl, -⟩ := h
    simp
  | cons e rest ih =>
    obtain ⟨key, val⟩ := e
    have hkey_not : key ∉ dictKeys acc := hdisj key (by simp)
    have hnd' : (rest.map Prod.fst).Nodup := (List.nodup_cons.1 hnd).2
    have hkey_rest : key ∉ rest.map Prod.fst := (List.nodup_cons.1 hnd).1
    have hdisj' : ∀ w : PyVal, ∀ k ∈ rest.map Prod.fst,
        k ∉ dictKeys (dictInsert acc key w) := by
      intro w k hk
      rw [mem_dictKeys_insert]
      rintro (hkd | rfl)
      · exact hdisj k (List.mem_cons_of_mem _ hk) hkd
      · exact hkey_rest hk
    rcases hpop : popD always val with ⟨mv, always'⟩
    cases mv with
    | some v =>
      simp only [buildFmt, hpop] at h
      by_cases hv : v.isNone = true
      · rw [if_pos hv] at h
        cases hget : getattrE r val with
        | ok w =>
          rw [hget] at h
          rw [ih _ _ hnd' (hdisj' w) h, dictKeys_insert_of_not_mem _ _ _ hkey_not,
            List.append_assoc, List.singleton_append, List.map_cons]
        | error e =>
          rw [hget] at h
          simp at h
      · rw [if_neg hv] at h
        rw [ih _ _ hnd' (hdisj' v) h, dictKeys_insert_of_not_mem _ _ _ hkey_not,
          List.append_assoc, List.singleton_append, List.map_cons]
    | none =>
      simp only [buildFmt, hpop] at h
      cases hget : getattrE r val with
      | ok w =>
        rw [hget] at h
        rw [ih _ _ hnd' (hdisj' w) h, dictKeys_insert_of_not_mem _ _ _ hkey_not,
          List.append_assoc, List.singleton_append, List.map_cons]
      | error e =>
        rw [hget] at h
        simp at h

lemma buildFmt_error (r : LogRecord) (fk : List (String × String))
    (always acc : List (String × PyVal)) (key attr : String)
    (hmem : (key, attr) ∈ fk)
    (hna : attr ∉ dictKeys always)
    (hnd : attr ∉ dictKeys r.dict)
    (hnc : attr ∉ LOG_RECORD_CLASS_ATTRS) :
    ∃ e, buildFmt r fk always acc = .error e := by
  induction fk generalizing always acc with
  | nil => cases hmem
  | cons e0 rest ih =>
    obtain ⟨key0, val0⟩ := e0
    rcases List.mem_cons.1 hmem with heq | hmemr
    · injection heq with h1 h2
      subst h1
      subst h2
      refine ⟨"AttributeError: " ++ attr, ?_⟩
      simp only [buildFmt, popD_not_mem always attr hna,
        getattrE_not_mem r attr hnd hnc]
    · rcases hpop : popD always val0 with ⟨mv, always'⟩
      have hna' : attr ∉ dictKeys always' := fun hm =>
        hna (popD_snd_keys_subset always val0 mv always' hpop attr hm)
      cases mv with
      | some v =>
        by_cases hv : v.isNone = true
        · cases hget : getattrE r val0 with
          | ok w =>
            obtain ⟨e, he⟩ := ih always' (dictInsert acc key0 w) hmemr hna'
            exact ⟨e, by simp only [buildFmt, hpop, if_pos hv, hget]; exact he⟩
          | error e2 =>
            exact ⟨e2, by simp only [buildFmt, hpop, if_pos hv, hget]⟩
        · obtain ⟨e, he⟩ := ih always' (dictInsert acc key0 v) hmemr hna'
          exact ⟨e, by simp only [buildFmt, hpop, if_neg hv]; exact he⟩
      | none =>
        cases hget : getattrE r val0 with
        | ok w =>
          obtain ⟨e, he⟩ := ih always' (dictInsert acc key0 w) hmemr hna'
          exact ⟨e, by simp only [buildFmt, hpop, hget]; exact he⟩
        | error e2 =>
          exact ⟨e2, by simp only [buildFmt, hpop, hget]⟩

lemma buildFmt_ok (r : LogRecord) (fk : List (String × String))
    (always acc : List (String × PyVal))
    (hnd : (fk.map Prod.snd).Nodup)
    (hav : ∀ p ∈ fk, p.2 ∈ dictKeys always ∨ p.2 ∈ dictKeys r.dict)
    (hnp : ∀ p ∈ always, p.2 ≠ PyVal.pnone) :
    ∃ res, buildFmt r fk always acc = .ok res := by
  induction fk generalizing always acc with
  | nil => exact ⟨(acc, always), rfl⟩
  | cons e0 rest ih =>
    obtain ⟨key, val⟩ := e0
    have hnd' : (rest.map Prod.snd).Nodup := (List.nodup_cons.1 hnd).2
    have hval_rest : val ∉ rest.map Prod.snd := (List.nodup_cons.1 hnd).1
    by_cases hmem : val ∈ dictKeys always
    · obtain ⟨v, hvmem, hpop⟩ := popD_mem always val hmem
      have hvne : ¬ v = PyVal.pnone := hnp (val, v) hvmem
      have hav' : ∀ p ∈ rest,
          p.2 ∈ dictKeys (always.filter fun q => !(q.1 == val)) ∨
            p.2 ∈ dictKeys r.dict := by
        intro p hp
        rcases hav p (List.mem_cons_of_mem _ hp) with hin | hin
        · left
          have hpne : p.2 ≠ val := fun e =>
            hval_rest (e ▸ List.mem_map_of_mem Prod.snd hp)
          rcases List.mem_map.1 hin with ⟨q, hq, hq1⟩
          have hqf : q ∈ always.filter fun q' => !(q'.1 == val) := by
            refine List.mem_filter.2 ⟨hq, ?_⟩
            simp [hq1, hpne]
          exact hq1 ▸ List.mem_map_of_mem Prod.fst hqf
        · right
          exact hin
      have hnp' : ∀ p ∈ always.filter fun q => !(q.1 == val), p.2 ≠ PyVal.pnone :=
        fun p hp => hnp p (List.mem_filter.1 hp).1
      obtain ⟨res, hres⟩ := ih _ (dictInsert acc key v) hnd' hav' hnp'
      exact ⟨res, by
        simp only [buildFmt, hpop, if_neg (isNone_false v hvne)]
        exact hres⟩
    · have hval_dict : val ∈ dictKeys r.dict := by
        rcases hav (key, val) (List.mem_cons_self _ _) with h | h
        · exact absurd h hmem
        · exact h
      obtain ⟨w, hw⟩ := getattrE_mem r val hval_dict
      have hav' : ∀ p ∈ rest, p.2 ∈ dictKeys always ∨ p.2 ∈ dictKeys r.dict :=
        fun p hp => hav p (List.mem_cons_of_mem _ hp)
      obtain ⟨res, hres⟩ := ih always (dictInsert acc key w) hnd' hav' hnp
      exact ⟨res, by simp only [buildFmt, popD_not_mem always val hmem, hw]; exact hres⟩

lemma prepare_ok_stack_none (fmtKeys : List (String × String)) (r : LogRecord)
    (m : List (String × PyVal))
    (h : MyJSONFormatter.prepareLogDict fmtKeys r = .ok m) :
    r.stackText = none := by
  unfold MyJSONFormatter.prepareLogDict at h
  cases hst : r.stackText with
  | some t =>
    rw [hst] at h
    simp at h
  | none => rfl

lemma prepare_ok_destruct (fmtKeys : List (String × String)) (r : LogRecord)
    (m : List (String × PyVal))
    (h : MyJSONFormatter.prepareLogDict fmtKeys r = .ok m) :
    ∃ msg leftover, buildFmt r fmtKeys (alwaysFields r) [] = .ok (msg, leftover) ∧
      m = (extrasOf r).foldl (fun d p => dictInsert d p.1 p.2)
            (leftover.foldl (fun d p => dictInsert d p.1 p.2) msg) := by
  have hst := prepare_ok_stack_none fmtKeys r m h
  unfold MyJSONFormatter.prepareLogDict at h
  rw [hst] at h
  cases hb : buildFmt r fmtKeys (alwaysFields r) [] with
  | error e =>
    rw [hb] at h
    simp at h
  | ok p =>
    obtain ⟨msg, leftover⟩ := p
    rw [hb] at h
    simp only [Except.ok.injEq] at h
    exact ⟨msg, leftover, rfl, h.symm⟩

/-! Lemmas about the always-present fields and the extras of a record. -/

lemma alwaysNames_nodup (r : LogRecord) : (alwaysNames r).Nodup := by
  obtain ⟨gm, ci, ex, st, lv, dc⟩ := r
  unfold alwaysNames alwaysFields dictKeys
  cases ex <;> simp

lemma mem_message_alwaysNames (r : LogRecord) : "message" ∈ alwaysNames r := by
  obtain ⟨gm, ci, ex, st, lv, dc⟩ := r
  unfold alwaysNames alwaysFields dictKeys
  cases ex <;> simp

lemma mem_timestamp_alwaysNames (r : LogRecord) : "timestamp" ∈ alwaysNames r := by
  obtain ⟨gm, ci, ex, st, lv, dc⟩ := r
  unfold alwaysNames alwaysFields dictKeys
  cases ex <;> simp

lemma alwaysFields_ne_pnone (r : LogRecord) :
    ∀ p ∈ alwaysFields r, p.2 ≠ PyVal.pnone := by
  obtain ⟨gm, ci, ex, st, lv, dc⟩ := r
  intro p hp
  unfold alwaysFields at hp
  cases ex <;> simp at hp
  · rcases hp with rfl | rfl <;> simp
  · rcases hp with rfl | rfl | rfl <;> simp

lemma alwaysFields_values_pstr (r : LogRecord) :
    ∀ p ∈ alwaysFields r, ∃ t, p.2 = PyVal.pstr t := by
  obtain ⟨gm, ci, ex, st, lv, dc⟩ := r
  intro p hp
  unfold alwaysFields at hp
  cases ex <;> simp at hp
  · rcases hp with rfl | rfl <;> exact ⟨_, rfl⟩
  · rcases hp with rfl | rfl | rfl <;> exact ⟨_, rfl⟩

lemma exc_mem_alwaysFields (r : LogRecord) (t : String) (h : r.excText = some t) :
    ("exc_info", PyVal.pstr t) ∈ alwaysFields r := by
  obtain ⟨gm, ci, ex, st, lv, dc⟩ := r
  unfold alwaysFields
  cases h
  simp

lemma exc_not_mem_alwaysNames (r : LogRecord) (h : r.excText = none) :
    "exc_info" ∉ alwaysNames r := by
  obtain ⟨gm, ci, ex, st, lv, dc⟩ := r
  unfold alwaysNames alwaysFields dictKeys
  cases h
  simp

lemma dictKeys_extrasOf (r : LogRecord) :
    dictKeys (extrasOf r) =
      (dictKeys r.dict).filter fun k => !(LOG_RECORD_BUILTIN_ATTRS.contains k) := by
  unfold extrasOf dictKeys
  rw [List.filter_map]
  rfl

lemma extras_keys_nodup (r : LogRecord) (h : (dictKeys r.dict).Nodup) :
    (dictKeys (extrasOf r)).Nodup := by
  rw [dictKeys_extrasOf]
  exact h.filter _

lemma builtin_not_mem_extras (r : LogRecord) (k : String)
    (h : LOG_RECORD_BUILTIN_ATTRS.contains k = true) :
    k ∉ dictKeys (extrasOf r) := by
  rw [dictKeys_extrasOf]
  intro hm
  have := (List.mem_filter.1 hm).2
  rw [h] at this
  cases this

lemma mem_extrasOf (r : LogRecord) (k : String) (v : PyVal)
    (hkv : (k, v) ∈ r.dict)
    (hnb : LOG_RECORD_BUILTIN_ATTRS.contains k = false) :
    (k, v) ∈ extrasOf r := by
  unfold extrasOf
  refine List.mem_filter.2 ⟨hkv, ?_⟩
  have hk : k ∉ LOG_RECORD_BUILTIN_ATTRS := by
    rw [contains_eq_decide_mem] at hnb
    exact of_decide_eq_false hnb
  simp [hk]

/-! Lemmas for the serializer: a rendered JSON line contains no newline. -/

lemma hexDigitM_ne_nl (n : Nat) : hexDigitM n ≠ '\n' := by
  unfold hexDigitM
  split <;> decide

lemma hex4_no_nl (n : Nat) : '\n' ∉ hex4 n := by
  unfold hex4
  intro h
  simp only [List.mem_cons, List.not_mem_nil, or_false] at h
  rcases h with h | h | h | h <;> exact hexDigitM_ne_nl _ h.symm

lemma natReprL_no_nl (n : Nat) : '\n' ∉ natReprL n := by
  induction n using Nat.strong_induction_on with
  | _ n ih =>
    unfold natReprL
    by_cases h : n < 10
    · rw [if_pos h]
      intro hm
      have : '\n' = hexDigitM n := by simpa using hm
      exact hexDigitM_ne_nl n this.symm
    · rw [if_neg h]
      intro hm
      rcases List.mem_append.1 hm with hm | hm
      · exact ih (n / 10) (Nat.div_lt_self (by omega) (by omega)) hm
      · have : '\n' = hexDigitM (n % 10) := by simpa using hm
        exact hexDigitM_ne_nl _ this.symm

lemma intReprL_no_nl (n : Int) : '\n' ∉ intReprL n := by
  unfold intReprL
  by_cases h : n < 0
  · rw [if_pos h]
    intro hm
    rcases List.mem_cons.1 hm with hm | hm
    · exact absurd hm (by decide)
    · exact natReprL_no_nl _ hm
  · rw [if_neg h]
    exact natReprL_no_nl _

lemma no_nl_u_hex (n : Nat) : '\n' ∉ '\\' :: 'u' :: hex4 n := by
  intro hm
  rcases List.mem_cons.1 hm with hm | hm
  · exact absurd hm (by decide)
  rcases List.mem_cons.1 hm with hm | hm
  · exact absurd hm (by decide)
  · exact hex4_no_nl _ hm

lemma escChar_no_nl (c : Char) : '\n' ∉ escChar c := by
  unfold escChar
  by_cases h1 : c = '\"'
  · rw [if_pos h1]; decide
  rw [if_neg h1]
  by_cases h2 : c = '\\'
  · rw [if_pos h2]; decide
  rw [if_neg h2]
  by_cases h3 : c = '\n'
  · rw [if_pos h3]; decide
  rw [if_neg h3]
  by_cases h4 : c = '\t'
  · rw [if_pos h4]; decide
  rw [if_neg h4]
  by_cases h5 : c = '\r'
  · rw [if_pos h5]; decide
  rw [if_neg h5]
  by_cases h6 : c = Char.ofNat 8
  · rw [if_pos h6]; decide
  rw [if_neg h6]
  by_cases h7 : c = Char.ofNat 12
  · rw [if_pos h7]; decide
  rw [if_neg h7]
  by_cases h8 : c.toNat < 32
  · rw [if_pos h8]
    exact no_nl_u_hex _
  rw [if_neg h8]
  by_cases h9 : c.toNat ≤ 126
  · rw [if_pos h9]
    intro hm
    exact h3 (show '\n' = c by simpa using hm).symm
  rw [if_neg h9]
  by_cases h10 : c.toNat < 65536
  · rw [if_pos h10]
    exact no_nl_u_hex _
  rw [if_neg h10]
  intro hm
  rcases List.mem_append.1 hm with hm2 | hm2
  · exact no_nl_u_hex _ hm2
  · exact no_nl_u_hex _ hm2

lemma escList_no_nl (l : List Char) : '\n' ∉ escList l := by
  induction l with
  | nil => simp [escList]
  | cons c cs ih =>
    unfold escList
    intro hm
    rcases List.mem_append.1 hm with hm | hm
    · exact escChar_no_nl c hm
    · exact ih hm

lemma jsonQuoteL_no_nl (l : List Char) : '\n' ∉ jsonQuoteL l := by
  unfold jsonQuoteL
  intro hm
  rcases List.mem_cons.1 hm with hm | hm
  · exact absurd hm (by decide)
  rcases List.mem_append.1 hm with hm | hm
  · exact escList_no_nl l hm
  · exact absurd hm (by decide)

lemma jsonKeyF_no_nl (k : PyVal) (s : List Char) (h : jsonKeyF k = .ok s) :
    '\n' ∉ s := by
  cases k with
  | pstr t =>
    simp only [jsonKeyF, Except.ok.injEq] at h
    subst h
    exact jsonQuoteL_no_nl _
  | pint n =>
    simp only [jsonKeyF, Except.ok.injEq] at h
    subst h
    intro hm
    rcases List.mem_cons.1 hm with hm | hm
    · exact absurd hm (by decide)
    rcases List.mem_append.1 hm with hm | hm
    · exact intReprL_no_nl n hm
    · exact absurd hm (by decide)
  | pnone =>
    simp only [jsonKeyF, Except.ok.injEq] at h
    subst h
    exact jsonQuoteL_no_nl _
  | plist l => simp [jsonKeyF] at h
  | pdict l => simp [jsonKeyF] at h
  | pobj t => simp [jsonKeyF] at h

lemma serializeF_no_nl (fuel : Nat) :
    ∀ (x : PyVal ⊕ List PyVal ⊕ List (PyVal × PyVal)) (s : List Char),
      serializeF fuel x = .ok s → '\n' ∉ s := by
  induction fuel with
  | zero =>
    intro x s h
    simp [serializeF] at h
  | succ fuel ih =>
    intro x s h
    rcases x with v | xs | kvs
    · cases v with
      | pstr t =>
        simp only [serializeF, Except.ok.injEq] at h
        subst h
        exact jsonQuoteL_no_nl _
      | pint n =>
        simp only [serializeF, Except.ok.injEq] at h
        subst h
        exact intReprL_no_nl n
      | pnone =>
        simp only [serializeF, Except.ok.injEq] at h
        subst h
        decide
      | pobj t =>
        simp only [serializeF, Except.ok.injEq] at h
        subst h
        exact jsonQuoteL_no_nl _
      | plist xs =>
        simp only [serializeF] at h
        cases hl : serializeF fuel (.inr (.inl xs)) with
        | error e =>
          rw [hl] at h
          simp at h
        | ok l =>
          rw [hl] at h
          simp only [Except.ok.injEq] at h
          subst h
          intro hm
          rcases List.mem_cons.1 hm with hm | hm
          · exact absurd hm (by decide)
          rcases List.mem_append.1 hm with hm | hm
          · exact ih _ _ hl hm
          · exact absurd hm (by decide)
      | pdict kvs =>
        simp only [serializeF] at h
        cases hl : serializeF fuel (.inr (.inr kvs)) with
        | error e =>
          rw [hl] at h
          simp at h
        | ok l =>
          rw [hl] at h
          simp only [Except.ok.injEq] at h
          subst h
          intro hm
          rcases List.mem_cons.1 hm with hm | hm
          · exact absurd hm (by decide)
          rcases List.mem_append.1 hm with hm | hm
          · exact ih _ _ hl hm
          · exact absurd hm (by decide)
    · cases xs with
      | nil =>
        simp only [serializeF, Except.ok.injEq] at h
        subst h
        simp
      | cons x rest =>
        cases rest with
        | nil =>
          simp only [serializeF] at h
          exact ih _ _ h
        | cons y rest2 =>
          simp only [serializeF] at h
          cases ha : serializeF fuel (.inl x) with
          | error e =>
            rw [ha] at h
            simp at h
          | ok a =>
            rw [ha] at h
            cases hb : serializeF fuel (.inr (.inl (y :: rest2))) with
            | error e =>
              rw [hb] at h
              simp at h
            | ok b =>
              rw [hb] at h
              simp only [Except.ok.injEq] at h
              subst h
              intro hm
              rcases List.mem_append.1 hm with hm | hm
              · exact ih _ _ ha hm
              rcases List.mem_cons.1 hm with hm | hm
              · exact absurd hm (by decide)
              rcases List.mem_cons.1 hm with hm | hm
              · exact absurd hm (by decide)
              · exact ih _ _ hb hm
    · cases kvs with
      | nil =>
        simp only [serializeF, Except.ok.injEq] at h
        subst h
        simp
      | cons kv rest =>
        obtain ⟨k, v⟩ := kv
        simp only [serializeF] at h
        cases hk : jsonKeyF k with
        | error e =>
          rw [hk] at h
          simp at h
        | ok ks =>
          rw [hk] at h
          cases hv : serializeF fuel (.inl v) with
          | error e =>
            rw [hv] at h
            simp at h
          | ok vs =>
            rw [hv] at h
            cases rest with
            | nil =>
              simp only [Except.ok.injEq] at h
              subst h
              intro hm
              rcases List.mem_append.1 hm with hm | hm
              · exact jsonKeyF_no_nl k ks hk hm
              rcases List.mem_cons.1 hm with hm | hm
              · exact absurd hm (by decide)
              rcases List.mem_cons.1 hm with hm | hm
              · exact absurd hm (by decide)
              · exact ih _ _ hv hm
            | cons kv2 rest2 =>
              cases hb : serializeF fuel (.inr (.inr (kv2 :: rest2))) with
              | error e =>
                rw [hb] at h
                simp at h
              | ok b =>
                rw [hb] at h
                simp only [Except.ok.injEq] at h
                subst h
                intro hm
                rcases List.mem_append.1 hm with hm | hm
                · rcases List.mem_append.1 hm with hm | hm
                  · exact jsonKeyF_no_nl k ks hk hm
                  rcases List.mem_cons.1 hm with hm | hm
                  · exact absurd hm (by decide)
                  rcases List.mem_cons.1 hm with hm | hm
                  · exact absurd hm (by decide)
                  · exact ih _ _ hv hm
                rcases List.mem_cons.1 hm with hm | hm
                · exact absurd hm (by decide)
                rcases List.mem_cons.1 hm with hm | hm
                · exact absurd hm (by decide)
                · exact ih _ _ hb hm

lemma serializeValE_no_nl (v : PyVal) (s : List Char)
    (h : serializeValE v = .ok s) : '\n' ∉ s :=
  serializeF_no_nl PY_RECURSION_LIMIT _ s h

lemma entryE_no_nl (p : String × PyVal) (s : List Char) (h : entryE p = .ok s) :
    '\n' ∉ s := by
  unfold entryE at h
  cases hv : serializeValE p.2 with
  | error e =>
    rw [hv] at h
    simp at h
  | ok vs =>
    rw [hv] at h
    simp only [Except.ok.injEq] at h
    subst h
    intro hm
    rcases List.mem_append.1 hm with hm | hm
    · exact jsonQuoteL_no_nl _ hm
    rcases List.mem_cons.1 hm with hm | hm
    · exact absurd hm (by decide)
    rcases List.mem_cons.1 hm with hm | hm
    · exact absurd hm (by decide)
    · exact serializeValE_no_nl p.2 vs hv hm

lemma serializeEntriesE_no_nl (d : List (String × PyVal)) (s : List Char)
    (h : serializeEntriesE d = .ok s) : '\n' ∉ s := by
  induction d generalizing s with
  | nil =>
    simp only [serializeEntriesE, Except.ok.injEq] at h
    subst h
    simp
  | cons p rest ih =>
    cases rest with
    | nil => exact entryE_no_nl p s h
    | cons q rest2 =>
      simp only [serializeEntriesE] at h
      cases ha : entryE p with
      | error e =>
        rw [ha] at h
        simp at h
      | ok a =>
        rw [ha] at h
        cases hb : serializeEntriesE (q :: rest2) with
        | error e =>
          rw [hb] at h
          simp at h
        | ok b =>
          rw [hb] at h
          simp only [Except.ok.injEq] at h
          subst h
          intro hm
          rcases List.mem_append.1 hm with hm | hm
          · exact entryE_no_nl p a ha hm
          rcases List.mem_cons.1 hm with hm | hm
          · exact absurd hm (by decide)
          rcases List.mem_cons.1 hm with hm | hm
          · exact absurd hm (by decide)
          · exact ih b hb hm

lemma serializeDictE_no_nl (d : List (String × PyVal)) (s : List Char)
    (h : serializeDictE d = .ok s) : '\n' ∉ s := by
  unfold serializeDictE at h
  cases he : serializeEntriesE d with
  | error e =>
    rw [he] at h
    simp at h
  | ok l =>
    rw [he] at h
    simp only [Except.ok.injEq] at h
    subst h
    intro hm
    rcases List.mem_cons.1 hm with hm | hm
    · exact absurd hm (by decide)
    rcases List.mem_append.1 hm with hm | hm
    · exact serializeEntriesE_no_nl d l he hm
    · exact absurd hm (by decide)

lemma entryE_ok (p : String × PyVal) (h : ∃ s, serializeValE p.2 = .ok s) :
    ∃ s, entryE p = .ok s := by
  obtain ⟨vs, hv⟩ := h
  exact ⟨jsonQuoteL p.1.data ++ ':' :: ' ' :: vs, by unfold entryE; rw [hv]⟩

lemma serializeEntriesE_ok (d : List (String × PyVal))
    (h : ∀ p ∈ d, ∃ s, serializeValE p.2 = .ok s) :
    ∃ s, serializeEntriesE d = .ok s := by
  induction d with
  | nil => exact ⟨[], rfl⟩
  | cons p rest ih =>
    obtain ⟨a, ha⟩ := entryE_ok p (h p (List.mem_cons_self _ _))
    cases rest with
    | nil => exact ⟨a, ha⟩
    | cons q rest2 =>
      obtain ⟨b, hb⟩ := ih (fun p hp => h p (List.mem_cons_of_mem _ hp))
      refine ⟨a ++ ',' :: ' ' :: b, ?_⟩
      simp only [serializeEntriesE]
      rw [ha, hb]

lemma serializeDictE_ok (d : List (String × PyVal))
    (h : ∀ p ∈ d, ∃ s, serializeValE p.2 = .ok s) :
    ∃ s, serializeDictE d = .ok s := by
  obtain ⟨l, hl⟩ := serializeEntriesE_ok d h
  exact ⟨Char.ofNat 123 :: (l ++ [Char.ofNat 125]),
    by unfold serializeDictE; rw [hl]⟩

/-! Higher-level helper lemmas about the prepared mapping. -/

lemma dictFind_eq_some_of_mem (d : List (String × PyVal)) (k : String) (v : PyVal)
    (hnd : (dictKeys d).Nodup) (hm : (k, v) ∈ d) :
    dictFind d k = some v := by
  induction d with
  | nil => cases hm
  | cons p t ih =>
    rcases List.mem_cons.1 hm with heq | hmt
    · cases heq
      unfold dictFind
      rw [@List.find?_cons_of_pos _ (fun q => q.1 == k) (k, v) t (by simp)]
      rfl
    · have hk : ¬ (p.1 == k) = true := by
        intro e
        have hpk : p.1 = k := by simpa using e
        have : k ∈ dictKeys t := List.mem_map_of_mem Prod.fst hmt
        exact (List.nodup_cons.1 hnd).1 (hpk ▸ this)
      unfold dictFind
      rw [@List.find?_cons_of_neg _ (fun q => q.1 == k) p t hk]
      exact ih (List.nodup_cons.1 hnd).2 hmt

lemma leftover_keys_eq (fmtKeys : List (String × String)) (r : LogRecord)
    (msg leftover : List (String × PyVal))
    (hb : buildFmt r fmtKeys (alwaysFields r) [] = .ok (msg, leftover)) :
    dictKeys leftover = leftoverAlwaysNames fmtKeys r := by
  rw [buildFmt_leftover r fmtKeys _ _ _ _ hb]
  unfold leftoverAlwaysNames alwaysNames dictKeys
  rw [List.filter_map]
  rfl

lemma prepare_find_always (fmtKeys : List (String × String)) (r : LogRecord)
    (m : List (String × PyVal)) (nm : String)
    (hok : MyJSONFormatter.prepareLogDict fmtKeys r = .ok m)
    (hbuiltin : LOG_RECORD_BUILTIN_ATTRS.contains nm = true)
    (hsrc : nm ∉ fmtKeys.map Prod.snd)
    (hout : nm ∉ fmtKeys.map Prod.fst) :
    dictFind m nm = dictFind (alwaysFields r) nm := by
  obtain ⟨msg, leftover, hb, rfl⟩ := prepare_ok_destruct fmtKeys r m hok
  rw [dictFind_foldl_of_not_mem _ _ _ (builtin_not_mem_extras r nm hbuiltin)]
  have hleftkeys : dictKeys leftover = leftoverAlwaysNames fmtKeys r :=
    leftover_keys_eq fmtKeys r msg leftover hb
  have hleft := buildFmt_leftover r fmtKeys _ _ _ _ hb
  by_cases hmem : nm ∈ alwaysNames r
  · rcases List.mem_map.1 hmem with ⟨p, hp, hp1⟩
    have hpl : p ∈ leftover := by
      rw [hleft]
      refine List.mem_filter.2 ⟨hp, ?_⟩
      rw [contains_eq_decide_mem]
      simp only [hp1]
      simp [hsrc]
    have hnodL : (dictKeys leftover).Nodup := by
      rw [hleftkeys]
      exact (alwaysNames_nodup r).filter _
    have hmem2 : (nm, p.2) ∈ leftover := by
      rw [← hp1]
      exact hpl
    rw [dictFind_foldl_of_mem leftover msg nm p.2 hnodL hmem2]
    have : (nm, p.2) ∈ alwaysFields r := by
      rw [← hp1]
      exact hp
    exact (dictFind_eq_some_of_mem _ _ _ (alwaysNames_nodup r) this).symm
  · have h1 : nm ∉ dictKeys leftover := by
      rw [hleftkeys]
      intro hm
      exact hmem (List.mem_filter.1 hm).1
    have h2 : nm ∉ dictKeys msg := by
      rw [buildFmt_mem_keys r fmtKeys _ _ _ _ hb]
      rintro (hc | hc)
      · simp [dictKeys] at hc
      · exact hout hc
    rw [dictFind_foldl_of_not_mem _ _ _ h1, dictFind_eq_none_of_not_mem _ _ h2,
      dictFind_eq_none_of_not_mem (alwaysFields r) nm hmem]

lemma dictFind_alwaysFields_exc (r : LogRecord) :
    dictFind (alwaysFields r) "exc_info" = r.excText.map PyVal.pstr := by
  obtain ⟨gm, ci, ex, st, lv, dc⟩ := r
  unfold alwaysFields dictFind
  cases ex <;> rfl

lemma stack_not_mem_alwaysNames (r : LogRecord) : "stack_info" ∉ alwaysNames r := by
  obtain ⟨gm, ci, ex, st, lv, dc⟩ := r
  unfold alwaysNames alwaysFields dictKeys
  cases ex <;> simp

/-! Value-tracking lemmas: every value of the prepared mapping originates
from the always-present fields, from `getattr`, or from the record's
`__dict__`, so serializability of the record's values transfers to the
mapping. -/

lemma mem_insert_cases (d : List (String × PyVal)) (k : String) (v : PyVal)
    (p : String × PyVal) (hp : p ∈ dictInsert d k v) : p ∈ d ∨ p.2 = v := by
  unfold dictInsert at hp
  by_cases hany : (d.any fun q => q.1 == k) = true
  · rw [if_pos hany] at hp
    rcases List.mem_map.1 hp with ⟨q, hq, hqe⟩
    by_cases hqk : (q.1 == k) = true
    · rw [if_pos hqk] at hqe
      right
      rw [← hqe]
    · rw [if_neg hqk] at hqe
      left
      rw [← hqe]
      exact hq
  · rw [if_neg hany] at hp
    rcases List.mem_append.1 hp with hp | hp
    · exact Or.inl hp
    · right
      have he : p = (k, v) := by simpa using hp
      rw [he]

lemma mem_foldl_cases (l : List (String × PyVal)) (d : List (String × PyVal))
    (p : String × PyVal)
    (hp : p ∈ l.foldl (fun d q => dictInsert d q.1 q.2) d) :
    p ∈ d ∨ ∃ q ∈ l, p.2 = q.2 := by
  induction l generalizing d with
  | nil => exact Or.inl hp
  | cons q t ih =>
    rw [List.foldl_cons] at hp
    rcases ih (dictInsert d q.1 q.2) hp with hd | ⟨q2, hq2, he⟩
    · rcases mem_insert_cases d q.1 q.2 p hd with hd | he
      · exact Or.inl hd
      · exact Or.inr ⟨q, List.mem_cons_self _ _, he⟩
    · exact Or.inr ⟨q2, List.mem_cons_of_mem _ hq2, he⟩

lemma getattrE_ok_value (r : LogRecord) (a : String) (w : PyVal)
    (h : getattrE r a = .ok w) :
    (∃ k, (k, w) ∈ r.dict) ∨ ∃ t, w = PyVal.pobj t := by
  unfold getattrE at h
  cases hf : r.dict.find? (fun p => p.1 == a) with
  | some p =>
    rw [hf] at h
    simp only [Except.ok.injEq] at h
    subst h
    exact Or.inl ⟨p.1, List.mem_of_find?_eq_some hf⟩
  | none =>
    rw [hf] at h
    by_cases hc : LOG_RECORD_CLASS_ATTRS.contains a = true
    · rw [if_pos hc] at h
      simp only [Except.ok.injEq] at h
      exact Or.inr ⟨_, h.symm⟩
    · rw [if_neg hc] at h
      simp at h

lemma buildFmt_values (r : LogRecord) (fk : List (String × String))
    (always acc m left : List (String × PyVal))
    (h : buildFmt r fk always acc = .ok (m, left)) :
    ∀ p ∈ m, p ∈ acc ∨ (∃ q ∈ always, p.2 = q.2) ∨
      ∃ a w, getattrE r a = .ok w ∧ p.2 = w := by
  induction fk generalizing always acc with
  | nil =>
    simp only [buildFmt, Except.ok.injEq, Prod.mk.injEq] at h
    obtain ⟨rfl, -⟩ := h
    intro p hp
    exact Or.inl hp
  | cons e0 rest ih =>
    obtain ⟨key, val⟩ := e0
    intro p hp
    rcases hpop : popD always val with ⟨mv, always'⟩
    cases mv with
    | some v =>
      obtain ⟨hflt, hvmem⟩ := popD_some_eq always val v always' hpop
      subst hflt
      simp only [buildFmt, hpop] at h
      by_cases hv : v.isNone = true
      · rw [if_pos hv] at h
        cases hget : getattrE r val with
        | ok w =>
          rw [hget] at h
          rcases ih _ _ h p hp with hacc | ⟨q, hq, he⟩ | hget2
          · rcases mem_insert_cases acc key w p hacc with hacc | he
            · exact Or.inl hacc
            · exact Or.inr (Or.inr ⟨val, w, hget, he⟩)
          · exact Or.inr (Or.inl ⟨q, (List.mem_filter.1 hq).1, he⟩)
          · exact Or.inr (Or.inr hget2)
        | error e =>
          rw [hget] at h
          simp at h
      · rw [if_neg hv] at h
        rcases ih _ _ h p hp with hacc | ⟨q, hq, he⟩ | hget2
        · rcases mem_insert_cases acc key v p hacc with hacc | he
          · exact Or.inl hacc
          · exact Or.inr (Or.inl ⟨(val, v), hvmem, he⟩)
        · exact Or.inr (Or.inl ⟨q, (List.mem_filter.1 hq).1, he⟩)
        · exact Or.inr (Or.inr hget2)
    | none =>
      obtain ⟨heq, -⟩ := popD_none_eq always val always' hpop
      subst heq
      simp only [buildFmt, hpop] at h
      cases hget : getattrE r val with
      | ok w =>
        rw [hget] at h
        rcases ih _ _ h p hp with hacc | hal | hget2
        · rcases mem_insert_cases acc key w p hacc with hacc | he
          · exact Or.inl hacc
          · exact Or.inr (Or.inr ⟨val, w, hget, he⟩)
        · exact Or.inr (Or.inl hal)
        · exact Or.inr (Or.inr hget2)
      | error e =>
        rw [hget] at h
        simp at h

lemma prepare_values_serializable (fmtKeys : List (String × String))
    (r : LogRecord) (m : List (String × PyVal))
    (hok : MyJSONFormatter.prepareLogDict fmtKeys r = .ok m)
    (hser : ∀ p ∈ r.dict, ∃ s, serializeValE p.2 = .ok s) :
    ∀ p ∈ m, ∃ s, serializeValE p.2 = .ok s := by
  obtain ⟨msg, leftover, hb, rfl⟩ := prepare_ok_destruct fmtKeys r m hok
  intro p hp
  rcases mem_foldl_cases (extrasOf r) _ p hp with hp1 | ⟨q, hq, he⟩
  · rcases mem_foldl_cases leftover msg p hp1 with hp2 | ⟨q, hq, he⟩
    · rcases buildFmt_values r fmtKeys _ _ _ _ hb p hp2 with
        hacc | ⟨q, hq, he⟩ | ⟨a, w, hget, he⟩
      · cases hacc
      · rw [he]
        obtain ⟨t, ht⟩ := alwaysFields_values_pstr r q hq
        rw [ht]
        exact ⟨_, rfl⟩
      · rw [he]
        rcases getattrE_ok_value r a w hget with ⟨k, hk⟩ | ⟨t, ht⟩
        · exact hser (k, w) hk
        · rw [ht]
          exact ⟨_, rfl⟩
    · rw [he]
      have hql : q ∈ alwaysFields r := by
        have hleft := buildFmt_leftover r fmtKeys _ _ _ _ hb
        rw [hleft] at hq
        exact (List.mem_filter.1 hq).1
      obtain ⟨t, ht⟩ := alwaysFields_values_pstr r q hql
      rw [ht]
      exact ⟨_, rfl⟩
  · rw [he]
    exact hser q (List.mem_filter.1 hq).1

/-! Claims. -/

/-- Claim C1: for every log event with no caller-supplied extra fields, the
key set of the mapping produced by `_prepare_log_dict` equals exactly the
output keys named in `fmt_keys` plus the always-present derived fields
(`message`, `timestamp`, and, when present, `exc_info` and `stack_info`)
that `fmt_keys` did not consume; no other keys appear. -/
theorem claim_C1_key_set (fmtKeys : List (String × String)) (r : LogRecord)
    (m : List (String × PyVal))
    (hnoextra : ∀ p ∈ r.dict, LOG_RECORD_BUILTIN_ATTRS.contains p.1 = true)
    (hok : MyJSONFormatter.prepareLogDict fmtKeys r = .ok m) (k : String) :
    k ∈ dictKeys m ↔
      k ∈ fmtKeys.map Prod.fst ∨ k ∈ leftoverAlwaysNames fmtKeys r := by
  obtain ⟨msg, leftover, hb, rfl⟩ := prepare_ok_destruct fmtKeys r m hok
  have hextras : extrasOf r = [] := by
    unfold extrasOf
    rw [List.filter_eq_nil_iff]
    intro p hp
    have hc := hnoextra p hp
    rw [contains_eq_decide_mem] at hc
    simp [of_decide_eq_true hc]
  rw [hextras]
  simp only [List.foldl_nil]
  rw [mem_dictKeys_foldl, buildFmt_mem_keys r fmtKeys _ _ _ _ hb k,
    leftover_keys_eq fmtKeys r msg leftover hb]
  simp [dictKeys]

/-- Witness for claim C1 at the format spec `{"level": "levelname"}` and the
extras-free record `recC1`. -/
theorem claim_C1_key_set_witness :
    "message" ∈ dictKeys [("level", PyVal.pstr "INFO"), ("message", PyVal.pstr "hi"),
        ("timestamp", PyVal.pstr "2026-10-12T00:00:00+00:00")] ↔
      "message" ∈ [("level", "levelname")].map Prod.fst ∨
        "message" ∈ leftoverAlwaysNames [("level", "levelname")] recC1 :=
  claim_C1_key_set [("level", "levelname")] recC1
    [("level", PyVal.pstr "INFO"), ("message", PyVal.pstr "hi"),
      ("timestamp", PyVal.pstr "2026-10-12T00:00:00+00:00")]
    (by decide) rfl "message"

/-- Claim C2: every caller-supplied extra entry (an event attribute whose
name is not in the intrinsic set) is appended to the output mapping under its
original key with its original value — so an event carrying the extra
`"x": "hello"` renders with `"x": "hello"` verbatim — and `"x"` is not a
member of `LOG_RECORD_BUILTIN_ATTRS`. -/
theorem claim_C2_extras_verbatim (fmtKeys : List (String × String)) (r : LogRecord)
    (m : List (String × PyVal)) (k : String) (v : PyVal)
    (hnd : (dictKeys r.dict).Nodup)
    (hkv : (k, v) ∈ r.dict)
    (hnb : LOG_RECORD_BUILTIN_ATTRS.contains k = false)
    (hok : MyJSONFormatter.prepareLogDict fmtKeys r = .ok m) :
    dictFind m k = some v ∧ LOG_RECORD_BUILTIN_ATTRS.contains "x" = false := by
  refine ⟨?_, by decide⟩
  obtain ⟨msg, leftover, hb, rfl⟩ := prepare_ok_destruct fmtKeys r m hok
  exact dictFind_foldl_of_mem (extrasOf r) _ k v (extras_keys_nodup r hnd)
    (mem_extrasOf r k v hkv hnb)

/-- Witness for claim C2 at the empty format spec and the record `recC2`
carrying the extra `"x": "hello"`. -/
theorem claim_C2_extras_verbatim_witness :
    dictFind [("message", PyVal.pstr "hi"),
        ("timestamp", PyVal.pstr "2026-10-12T00:00:00+00:00"),
        ("x", PyVal.pstr "hello")] "x" = some (PyVal.pstr "hello") ∧
      LOG_RECORD_BUILTIN_ATTRS.contains "x" = false :=
  claim_C2_extras_verbatim [] recC2
    [("message", PyVal.pstr "hi"),
      ("timestamp", PyVal.pstr "2026-10-12T00:00:00+00:00"),
      ("x", PyVal.pstr "hello")]
    "x" (PyVal.pstr "hello") (by decide) (by simp [recC2]) (by decide) rfl

/-- Claim C3: a `fmt_keys` entry whose source attribute is neither an
always-present derived field (of this event) nor an attribute present on the
event — neither in `record.__dict__` nor reachable as a `LogRecord` class
attribute — makes `_prepare_log_dict` fail with a reported `AttributeError`
instead of producing output with a silently defaulted field. -/
theorem claim_C3_unknown_attr_fails (fmtKeys : List (String × String))
    (r : LogRecord) (key attr : String)
    (hmem : (key, attr) ∈ fmtKeys)
    (hna : attr ∉ alwaysNames r)
    (hnd : attr ∉ dictKeys r.dict)
    (hnc : attr ∉ LOG_RECORD_CLASS_ATTRS) :
    ∃ e, MyJSONFormatter.prepareLogDict fmtKeys r = .error e := by
  cases hst : r.stackText with
  | some t =>
    refine ⟨"AttributeError: 'str' object has no attribute 'tb_frame'", ?_⟩
    unfold MyJSONFormatter.prepareLogDict
    rw [hst]
  | none =>
    obtain ⟨e, he⟩ :=
      buildFmt_error r fmtKeys (alwaysFields r) [] key attr hmem hna hnd hnc
    refine ⟨e, ?_⟩
    unfold MyJSONFormatter.prepareLogDict
    rw [hst, he]

/-- Witness for claim C3 at the format spec `{"foo": "nope"}` and the record
`recC3`, which has no attribute `nope`. -/
theorem claim_C3_unknown_attr_fails_witness :
    ∃ e, MyJSONFormatter.prepareLogDict [("foo", "nope")] recC3 = .error e :=
  claim_C3_unknown_attr_fails [("foo", "nope")] recC3 "foo" "nope" (by decide)
    (by decide) (by decide) (by decide)

/-- Claim C5: `NonErrorFilter.filter` returns true exactly when the event's
severity is at most `logging.INFO` — accepting every DEBUG and INFO event and
rejecting every WARNING, ERROR and CRITICAL event — and it is a pure function
of the severity alone. -/
theorem claim_C5_severity_filter (r : LogRecord) :
    (NonErrorFilter.filter r = true ↔ r.levelno ≤ logging_INFO) ∧
    ((r.levelno = logging_DEBUG ∨ r.levelno = logging_INFO) →
      NonErrorFilter.filter r = true) ∧
    ((r.levelno = logging_WARNING ∨ r.levelno = logging_ERROR ∨
        r.levelno = logging_CRITICAL) →
      NonErrorFilter.filter r = false) ∧
    (∀ r' : LogRecord, r'.levelno = r.levelno →
      NonErrorFilter.filter r' = NonErrorFilter.filter r) := by
  refine ⟨by simp [NonErrorFilter.filter], ?_, ?_, ?_⟩
  · rintro (h | h) <;>
      simp [NonErrorFilter.filter, h, logging_DEBUG, logging_INFO]
  · rintro (h | h | h) <;>
      simp [NonErrorFilter.filter, h, logging_WARNING, logging_ERROR,
        logging_CRITICAL, logging_INFO]
  · intro r' h
    unfold NonErrorFilter.filter
    rw [h]

/-- Witness for claim C5 at the concrete DEBUG record `recC5`. -/
theorem claim_C5_severity_filter_witness :
    (NonErrorFilter.filter recC5 = true ↔ recC5.levelno ≤ logging_INFO) ∧
    ((recC5.levelno = logging_DEBUG ∨ recC5.levelno = logging_INFO) →
      NonErrorFilter.filter recC5 = true) ∧
    ((recC5.levelno = logging_WARNING ∨ recC5.levelno = logging_ERROR ∨
        recC5.levelno = logging_CRITICAL) →
      NonErrorFilter.filter recC5 = false) ∧
    (∀ r' : LogRecord, r'.levelno = recC5.levelno →
      NonErrorFilter.filter r' = NonErrorFilter.filter recC5) :=
  claim_C5_severity_filter recC5

/-- Claim C10 (implicit): an extra field whose key equals a format-spec
output key (or the name of a leftover always-present field) while not being
an intrinsic attribute name overwrites the value previously stored at that
key, because the extras are merged into the output mapping last: the rendered
mapping carries the extra's value under that key. -/
theorem claim_C10_extras_overwrite (fmtKeys : List (String × String))
    (r : LogRecord) (m : List (String × PyVal)) (k : String) (v : PyVal)
    (hnd : (dictKeys r.dict).Nodup)
    (hkv : (k, v) ∈ r.dict)
    (hnb : LOG_RECORD_BUILTIN_ATTRS.contains k = false)
    (hcol : k ∈ fmtKeys.map Prod.fst ∨ k ∈ leftoverAlwaysNames fmtKeys r)
    (hok : MyJSONFormatter.prepareLogDict fmtKeys r = .ok m) :
    dictFind m k = some v := by
  obtain ⟨msg, leftover, hb, rfl⟩ := prepare_ok_destruct fmtKeys r m hok
  exact dictFind_foldl_of_mem (extrasOf r) _ k v (extras_keys_nodup r hnd)
    (mem_extrasOf r k v hkv hnb)

/-- Witness for claim C10 at the format spec `{"level": "levelname"}` and the
record `recC10`, whose extra `level` collides with the output key `level`:
the rendered value at `level` is the extra's `"fake"`, not `"INFO"`. -/
theorem claim_C10_extras_overwrite_witness :
    dictFind [("level", PyVal.pstr "fake"), ("message", PyVal.pstr "hi"),
        ("timestamp", PyVal.pstr "2026-10-12T00:00:00+00:00")] "level" =
      some (PyVal.pstr "fake") :=
  claim_C10_extras_overwrite [("level", "levelname")] recC10
    [("level", PyVal.pstr "fake"), ("message", PyVal.pstr "hi"),
      ("timestamp", PyVal.pstr "2026-10-12T00:00:00+00:00")]
    "level" (PyVal.pstr "fake") (by decide) (by simp [recC10]) (by decide)
    (by left; decide) rfl

/-- Counterexample to claim C4 as stated, in two ways. First, for the record
`recC4`, whose caller-supplied extra field is named `timestamp` (not an
intrinsic name, and also the name of a leftover always-present field), the
empty format spec yields the key order `["message", "timestamp"]` — the
extra overwrote the always-present `timestamp` entry in place, keeping its
earlier position — and not the claimed `formatSpec ++ leftovers ++ extras`
order, which here would be `["message", "timestamp", "timestamp"]`. Second,
for the extras-free record `recC4b` under the format spec
`{"message": "levelname"}`, the leftover always-present `message` is merged
into the existing output key `message` in place, so the key order is again
`["message", "timestamp"]` and not `outputs ++ leftovers ++ extras`. -/
theorem claim_C4_counterexample :
    (MyJSONFormatter.prepareLogDict [] recC4 =
        .ok [("message", PyVal.pstr "hi"), ("timestamp", PyVal.pstr "fake")] ∧
      dictKeys [("message", PyVal.pstr "hi"), ("timestamp", PyVal.pstr "fake")] ≠
        ([] : List (String × String)).map Prod.fst ++
          leftoverAlwaysNames [] recC4 ++ dictKeys (extrasOf recC4)) ∧
    (MyJSONFormatter.prepareLogDict [("message", "levelname")] recC4b =
        .ok [("message", PyVal.pstr "hi"),
          ("timestamp", PyVal.pstr "2026-10-12T00:00:00+00:00")] ∧
      dictKeys [("message", PyVal.pstr "hi"),
          ("timestamp", PyVal.pstr "2026-10-12T00:00:00+00:00")] ≠
        [("message", "levelname")].map Prod.fst ++
          leftoverAlwaysNames [("message", "levelname")] recC4b ++
          dictKeys (extrasOf recC4b)) :=
  ⟨⟨rfl, by decide⟩, rfl, by decide⟩

/-- Claim C4 (amended): provided no caller-supplied extra key collides with a
format-spec output key or with a leftover always-present field name (and the
output keys and the record's attribute names are duplicate-free, as Python
dicts guarantee), the key insertion order of the prepared mapping is: the
format spec's output keys in spec order, then the leftover always-present
fields, then the extras in the event's own attribute order. A colliding
extra instead overwrites the value in place, keeping the earlier key
position. -/
theorem claim_C4_key_order (fmtKeys : List (String × String)) (r : LogRecord)
    (m : List (String × PyVal))
    (hok : MyJSONFormatter.prepareLogDict fmtKeys r = .ok m)
    (hndout : (fmtKeys.map Prod.fst).Nodup)
    (hnddict : (dictKeys r.dict).Nodup)
    (hdisj1 : ∀ k ∈ leftoverAlwaysNames fmtKeys r, k ∉ fmtKeys.map Prod.fst)
    (hdisj2 : ∀ k ∈ dictKeys (extrasOf r),
        k ∉ fmtKeys.map Prod.fst ∧ k ∉ leftoverAlwaysNames fmtKeys r) :
    dictKeys m = fmtKeys.map Prod.fst ++ leftoverAlwaysNames fmtKeys r ++
      dictKeys (extrasOf r) := by
  obtain ⟨msg, leftover, hb, rfl⟩ := prepare_ok_destruct fmtKeys r m hok
  have hmsg : dictKeys msg = fmtKeys.map Prod.fst := by
    simpa using buildFmt_keys_append r fmtKeys _ _ _ _ hndout
      (by simp [dictKeys]) hb
  have hleftkeys : dictKeys leftover = leftoverAlwaysNames fmtKeys r :=
    leftover_keys_eq fmtKeys r msg leftover hb
  have hleft_nodup : (dictKeys leftover).Nodup := by
    rw [hleftkeys]
    exact (alwaysNames_nodup r).filter _
  have hdisjL : ∀ k ∈ dictKeys leftover, k ∉ dictKeys msg := by
    intro k hk
    rw [hmsg]
    exact hdisj1 k (hleftkeys ▸ hk)
  have h1 := dictKeys_foldl_disjoint leftover msg hleft_nodup hdisjL
  have hdisjE : ∀ k ∈ dictKeys (extrasOf r),
      k ∉ dictKeys (leftover.foldl (fun d p => dictInsert d p.1 p.2) msg) := by
    intro k hk
    rw [h1, List.mem_append]
    rintro (hc | hc)
    · exact (hdisj2 k hk).1 (hmsg ▸ hc)
    · exact (hdisj2 k hk).2 (hleftkeys ▸ hc)
  have h2 := dictKeys_foldl_disjoint (extrasOf r) _
    (extras_keys_nodup r hnddict) hdisjE
  rw [h2, h1, hmsg, hleftkeys]

/-- Witness for the amended claim C4 at the format spec
`{"level": "levelname"}` and the record `recC4w`, whose only extra `x`
collides with nothing. -/
theorem claim_C4_key_order_witness :
    dictKeys [("level", PyVal.pstr "INFO"), ("message", PyVal.pstr "hi"),
        ("timestamp", PyVal.pstr "2026-10-12T00:00:00+00:00"),
        ("x", PyVal.pstr "hello")] =
      [("level", "levelname")].map Prod.fst ++
        leftoverAlwaysNames [("level", "levelname")] recC4w ++
        dictKeys (extrasOf recC4w) :=
  claim_C4_key_order [("level", "levelname")] recC4w
    [("level", PyVal.pstr "INFO"), ("message", PyVal.pstr "hi"),
      ("timestamp", PyVal.pstr "2026-10-12T00:00:00+00:00"),
      ("x", PyVal.pstr "hello")]
    rfl (by decide) (by decide) (by decide) (by decide)

/-- Counterexample to claim C6 as stated, in three ways. First, the format
spec `\x7b"a": "message", "b": "message"\x7d` references only the available
always-present field `message`, yet rendering fails: the first entry consumes
`message` from `always_fields` by `pop`, so the second entry falls through to
`getattr(record, "message")`, and no `message` attribute exists on the
record. Second, a record carrying stack-trace info never renders at all: the
formatter calls `formatException` on the stack string and dies with an
`AttributeError` (see `MyJSONFormatter.prepareLogDict`). Third, a record
value may still defeat `json.dumps` despite `default=str`: a dict extra
whose key is an object makes serialization raise `TypeError`. -/
theorem claim_C6_counterexample :
    (([("a", "message"), ("b", "message")].all fun p =>
        (alwaysNames recC6).contains p.2 || (dictKeys recC6.dict).contains p.2)
        = true ∧
      MyJSONFormatter.prepareLogDict [("a", "message"), ("b", "message")] recC6 =
        .error "AttributeError: message") ∧
    MyJSONFormatter.format [("level", "levelname")] recC6stack =
      .error "AttributeError: 'str' object has no attribute 'tb_frame'" ∧
    MyJSONFormatter.format [("level", "levelname")] recC6bad =
      .error "TypeError: keys must be str, int, float, bool or None" :=
  ⟨⟨rfl, rfl⟩, rfl, rfl⟩

/-- Claim C6 (amended): for every log event that carries no stack-trace info
(events with stack info crash in `formatException` before rendering), whose
format spec references only available attributes (always-present derived
fields of the event, or attributes on the event) and references each source
attribute at most once, and all of whose attribute values are
JSON-serializable under `default=str`, rendering succeeds and returns a
single-line JSON string — no newline characters, even when field values
contain newlines — and an atomic value without a native JSON representation
is serialized as the JSON string of its textual representation
(`default=str`) rather than failing. -/
theorem claim_C6_single_line (fmtKeys : List (String × String)) (r : LogRecord)
    (hstack : r.stackText = none)
    (hnd : (fmtKeys.map Prod.snd).Nodup)
    (hav : ∀ p ∈ fmtKeys, p.2 ∈ alwaysNames r ∨ p.2 ∈ dictKeys r.dict)
    (hser : ∀ p ∈ r.dict, ∃ s, serializeValE p.2 = .ok s) :
    (∃ s, MyJSONFormatter.format fmtKeys r = .ok s ∧ '\n' ∉ s.data) ∧
      (∀ t, serializeValE (PyVal.pobj t) = .ok (jsonQuoteL t.data)) := by
  refine ⟨?_, fun t => rfl⟩
  obtain ⟨res, hres⟩ := buildFmt_ok r fmtKeys (alwaysFields r) [] hnd hav
    (alwaysFields_ne_pnone r)
  obtain ⟨msg, leftover⟩ := res
  have hok : MyJSONFormatter.prepareLogDict fmtKeys r = .ok
      ((extrasOf r).foldl (fun d p => dictInsert d p.1 p.2)
        (leftover.foldl (fun d p => dictInsert d p.1 p.2) msg)) := by
    unfold MyJSONFormatter.prepareLogDict
    rw [hstack, hres]
  obtain ⟨l, hl⟩ :=
    serializeDictE_ok _ (prepare_values_serializable fmtKeys r _ hok hser)
  refine ⟨String.mk l, ?_, ?_⟩
  · unfold MyJSONFormatter.format
    simp only [hok, hl]
  · exact serializeDictE_no_nl _ l hl

/-- Witness for the amended claim C6 at the format spec
`\x7b"level": "levelname"\x7d` and the record `recC6w`, whose message
contains a newline and whose extra `payload` has no native JSON
representation. -/
theorem claim_C6_single_line_witness :
    ∃ s, MyJSONFormatter.format [("level", "levelname")] recC6w = .ok s ∧
      '\n' ∉ s.data :=
  (claim_C6_single_line [("level", "levelname")] recC6w rfl (by decide)
    (by decide)
    (by
      intro p hp
      simp only [recC6w] at hp
      rcases List.mem_cons.1 hp with hpe | hp
      · rw [hpe]
        exact ⟨_, rfl⟩
      rcases List.mem_cons.1 hp with hpe | hp
      · rw [hpe]
        exact ⟨_, rfl⟩
      · cases hp)).1

/-- Counterexample to claim C7 as stated, in two ways. First, `recC7`
carries exception text, but under the format spec
`\x7b"error": "exc_info"\x7d` the render consumes `exc_info` into the output
key `error`, so the rendered mapping has no `exc_info` key at all. Second,
`recC7stack` carries separate stack-trace info, and rendering it does not add
a `stack_info` field — it fails outright, because the formatter calls
`formatException(record.stack_info)` on the stack string
(`src/logger.py:97`), which raises `AttributeError` (`formatStack` was
evidently intended). -/
theorem claim_C7_counterexample :
    (recC7.excText = some "Traceback: ZeroDivisionError" ∧
      MyJSONFormatter.prepareLogDict [("error", "exc_info")] recC7 =
        .ok [("error", PyVal.pstr "Traceback: ZeroDivisionError"),
          ("message", PyVal.pstr "boom"),
          ("timestamp", PyVal.pstr "2026-10-12T00:00:00+00:00")] ∧
      dictFind [("error", PyVal.pstr "Traceback: ZeroDivisionError"),
          ("message", PyVal.pstr "boom"),
          ("timestamp", PyVal.pstr "2026-10-12T00:00:00+00:00")] "exc_info"
        = none) ∧
    (recC7stack.stackText = some "Stack (most recent call last): ..." ∧
      MyJSONFormatter.prepareLogDict [] recC7stack =
        .error "AttributeError: 'str' object has no attribute 'tb_frame'") :=
  ⟨⟨rfl, rfl, rfl⟩, rfl, rfl⟩

/-- Claim C7 (amended): provided the format spec does not itself name
`exc_info` (as a source attribute or an output key) nor `stack_info` (as an
output key), any successfully rendered mapping contains the key `exc_info`
exactly when the record carries formatted exception text, with that text as
its value, and omitted when absent. The `stack_info` half of the claim
fails: an event carrying separate stack-trace info never renders at all —
`_prepare_log_dict` calls `formatException` on the stack string and raises —
so a rendered record provably has no stack info and its mapping never
contains a `stack_info` key. -/
theorem claim_C7_exc_stack_fields (fmtKeys : List (String × String))
    (r : LogRecord) (m : List (String × PyVal))
    (hok : MyJSONFormatter.prepareLogDict fmtKeys r = .ok m)
    (hse : "exc_info" ∉ fmtKeys.map Prod.snd)
    (hoe : "exc_info" ∉ fmtKeys.map Prod.fst)
    (hos : "stack_info" ∉ fmtKeys.map Prod.fst) :
    dictFind m "exc_info" = r.excText.map PyVal.pstr ∧
      r.stackText = none ∧ dictFind m "stack_info" = none := by
  refine ⟨?_, prepare_ok_stack_none fmtKeys r m hok, ?_⟩
  · rw [prepare_find_always fmtKeys r m "exc_info" hok (by decide) hse hoe]
    exact dictFind_alwaysFields_exc r
  · obtain ⟨msg, leftover, hb, rfl⟩ := prepare_ok_destruct fmtKeys r m hok
    apply dictFind_eq_none_of_not_mem
    rw [mem_dictKeys_foldl, mem_dictKeys_foldl,
      buildFmt_mem_keys r fmtKeys _ _ _ _ hb]
    rintro (((hc | hc) | hc) | hc)
    · simp [dictKeys] at hc
    · exact hos hc
    · have hlk := leftover_keys_eq fmtKeys r msg leftover hb
      rw [hlk] at hc
      exact stack_not_mem_alwaysNames r (List.mem_filter.1 hc).1
    · exact builtin_not_mem_extras r "stack_info" (by decide) hc

/-- Witness for the amended claim C7 at the format spec
`\x7b"level": "levelname"\x7d` and the record `recC7w`, which carries
exception text and no stack-trace info. -/
theorem claim_C7_exc_stack_fields_witness :
    dictFind [("level", PyVal.pstr "ERROR"), ("message", PyVal.pstr "boom"),
        ("timestamp", PyVal.pstr "2026-10-12T00:00:00+00:00"),
        ("exc_info", PyVal.pstr "Traceback: ZeroDivisionError")] "exc_info" =
        recC7w.excText.map PyVal.pstr ∧
      recC7w.stackText = none ∧
      dictFind [("level", PyVal.pstr "ERROR"), ("message", PyVal.pstr "boom"),
        ("timestamp", PyVal.pstr "2026-10-12T00:00:00+00:00"),
        ("exc_info", PyVal.pstr "Traceback: ZeroDivisionError")] "stack_info"
        = none :=
  claim_C7_exc_stack_fields [("level", "levelname")] recC7w
    [("level", PyVal.pstr "ERROR"), ("message", PyVal.pstr "boom"),
      ("timestamp", PyVal.pstr "2026-10-12T00:00:00+00:00"),
      ("exc_info", PyVal.pstr "Traceback: ZeroDivisionError")]
    rfl (by decide) (by decide) (by decide)

/-- Claim C8: an exception-flavored emission performed while no exception
context is active (modelled from the spec as `exceptionEmitNoContext`, since
the emission machinery is outside `src/`) does not crash the formatter:
rendering with the default format spec succeeds, the output still contains
the rendered message, and its `exc_info` field is absent. -/
theorem claim_C8_exception_no_context (msg ts : String) :
    MyJSONFormatter.prepareLogDict defaultFmtKeys (exceptionEmitNoContext msg ts)
        = .ok [("level", PyVal.pstr "ERROR"), ("message", PyVal.pstr msg),
          ("timestamp", PyVal.pstr ts)] ∧
      dictFind [("level", PyVal.pstr "ERROR"), ("message", PyVal.pstr msg),
          ("timestamp", PyVal.pstr ts)] "message" = some (PyVal.pstr msg) ∧
      dictFind [("level", PyVal.pstr "ERROR"), ("message", PyVal.pstr msg),
          ("timestamp", PyVal.pstr ts)] "exc_info" = none :=
  ⟨rfl, rfl, rfl⟩

/-- Claim C9: every line the file sink actually writes — i.e. every string
the default-format render completes on, for any record of any severity with
any extras — is the brace-delimited serialization of a key-value mapping (a
JSON object, never an array or scalar), and that mapping contains the keys
`message` and `timestamp`. -/
theorem claim_C9_roundtrip (r : LogRecord) (s : String)
    (hfmt : MyJSONFormatter.format defaultFmtKeys r = .ok s) :
    ∃ m, MyJSONFormatter.prepareLogDict defaultFmtKeys r = .ok m ∧
      serializeDictE m = .ok s.data ∧
      "message" ∈ dictKeys m ∧ "timestamp" ∈ dictKeys m ∧
      s.data.head? = some (Char.ofNat 123) ∧
      s.data.getLast? = some (Char.ofNat 125) := by
  cases hok : MyJSONFormatter.prepareLogDict defaultFmtKeys r with
  | error e =>
    simp only [MyJSONFormatter.format, hok] at hfmt
    exact Except.noConfusion hfmt
  | ok m =>
    cases hs : serializeDictE m with
    | error e =>
      simp only [MyJSONFormatter.format, hok, hs] at hfmt
      exact Except.noConfusion hfmt
    | ok l =>
      simp only [MyJSONFormatter.format, hok, hs, Except.ok.injEq] at hfmt
      subst hfmt
      obtain ⟨msg, leftover, hb, hm⟩ := prepare_ok_destruct defaultFmtKeys r m hok
      have hshape : ∃ l2, l = Char.ofNat 123 :: (l2 ++ [Char.ofNat 125]) := by
        unfold serializeDictE at hs
        cases he : serializeEntriesE m with
        | error e =>
          rw [he] at hs
          simp at hs
        | ok l2 =>
          rw [he] at hs
          simp only [Except.ok.injEq] at hs
          exact ⟨l2, hs.symm⟩
      refine ⟨m, rfl, hs, ?_, ?_, ?_, ?_⟩
      · subst hm
        rw [mem_dictKeys_foldl, mem_dictKeys_foldl,
          buildFmt_mem_keys r defaultFmtKeys _ _ _ _ hb]
        exact Or.inl (Or.inl (Or.inr (by decide)))
      · subst hm
        rw [mem_dictKeys_foldl, mem_dictKeys_foldl,
          buildFmt_mem_keys r defaultFmtKeys _ _ _ _ hb]
        exact Or.inl (Or.inl (Or.inr (by decide)))
      · obtain ⟨l2, rfl⟩ := hshape
        rfl
      · obtain ⟨l2, rfl⟩ := hshape
        show (Char.ofNat 123 :: (l2 ++ [Char.ofNat 125])).getLast? = _
        rw [show Char.ofNat 123 :: (l2 ++ [Char.ofNat 125]) =
          (Char.ofNat 123 :: l2) ++ [Char.ofNat 125] from rfl]
        rw [List.getLast?_concat]

/-- Witness for claim C9 at the record `recC9w` and the line the formatter
renders for it. -/
theorem claim_C9_roundtrip_witness :
    ∃ m, MyJSONFormatter.prepareLogDict defaultFmtKeys recC9w = .ok m ∧
      serializeDictE m =
        .ok ("\x7b\"level\": \"INFO\", \"message\": \"Logging setup complete.\", \"timestamp\": \"2026-10-12T00:00:00+00:00\", \"x\": \"hello\"\x7d" : String).data ∧
      "message" ∈ dictKeys m ∧ "timestamp" ∈ dictKeys m ∧
      ("\x7b\"level\": \"INFO\", \"message\": \"Logging setup complete.\", \"timestamp\": \"2026-10-12T00:00:00+00:00\", \"x\": \"hello\"\x7d" : String).data.head?
        = some (Char.ofNat 123) ∧
      ("\x7b\"level\": \"INFO\", \"message\": \"Logging setup complete.\", \"timestamp\": \"2026-10-12T00:00:00+00:00\", \"x\": \"hello\"\x7d" : String).data.getLast?
        = some (Char.ofNat 125) :=
  claim_C9_roundtrip recC9w
    "\x7b\"level\": \"INFO\", \"message\": \"Logging setup complete.\", \"timestamp\": \"2026-10-12T00:00:00+00:00\", \"x\": \"hello\"\x7d"
    rfl
